import Mathlib

/-!
# cq: argument classification (`main.go`), providers, `runAPI`, configuration wizard

A shallow embedding of `reorderArgs` and `firstPositionalArg` with the string
helpers and flag tables they use, of the provider methods `ResolveModel` and
`Run` (up to the streaming call), of `runAPI`, and of the update function of
the configuration wizard, followed by their properties.

Tokens are Lean strings.  The Go code inspects tokens only through
`strings.HasPrefix`, `strings.Index`, `strings.Contains`, the slice `arg[:i]`
and map lookups; these are embedded over the character list of the token, the
index returned by `Index` being the one the slice `arg[:i]` is taken at.  The
only characters searched for are `-` and `=`.

The package-level variable `passthrough` is passed explicitly: `reorderArgs`
takes its content before the call and returns its content after the call next
to the returned list.
-/

namespace Cq

/-! ## Go string helpers -/

/-- Go `strings.HasPrefix(s, pre)`. -/
def HasPrefix (s pre : String) : Bool :=
  pre.data.isPrefixOf s.data

/-- Search loop behind `strings.Index`: the first offset, counted from `k`,
at which `sub` occurs, or `-1`. -/
def indexFrom (sub : List Char) : List Char → Nat → Int
  | [], k => if sub.isPrefixOf [] then (k : Int) else -1
  | c :: cs, k => if sub.isPrefixOf (c :: cs) then (k : Int) else indexFrom sub cs (k + 1)

/-- Go `strings.Index(s, sub)`: index of the first occurrence of `sub` in `s`,
or `-1` when there is none. -/
def Index (s sub : String) : Int :=
  indexFrom sub.data s.data 0

/-- Go `strings.Contains(s, sub)`, which is `Index(s, sub) >= 0`. -/
def Contains (s sub : String) : Bool :=
  decide (0 ≤ Index s sub)

/-- Go slice expression `s[:i]`. -/
def slicePrefix (s : String) (i : Nat) : String :=
  ⟨s.data.take i⟩

/-! ## Flag tables of `main.go` -/

/-- The map `flagsWithValue`: ask flags that consume the next argument.  A
lookup of an absent key yields `false`. -/
def flagsWithValue (arg : String) : Bool :=
  arg == "-m" || arg == "--model"

/-- The map `knownBoolFlags`: ask boolean flags.  A lookup of an absent key
yields `false`. -/
def knownBoolFlags (arg : String) : Bool :=
  arg == "--raw" || arg == "--dry-run" ||
  arg == "--think" || arg == "--search" ||
  arg == "-h" || arg == "--help" ||
  arg == "-v" || arg == "--version"

/-- The function `isKnownBoolFlagWithValue` of `main.go`: `arg` is a known
bool flag with `=value`. -/
def isKnownBoolFlagWithValue (arg : String) : Bool :=
  let i := Index arg "="
  if i > 0 then knownBoolFlags (slicePrefix arg i.toNat) else false

/-! ## The loop of `reorderArgs` -/

/-- Variables of `reorderArgs` that the loop reads and writes: the index `i`,
the locals `flags` and `positional`, and the package-level `passthrough`. -/
structure LoopState where
  i : Nat
  flags : List String
  positional : List String
  passthrough : List String
  deriving DecidableEq, Repr

/-- One iteration of `for i := 0; i < len(args); i++ { ... }`, entered with
`i < len(args)`: the body followed by the post statement `i++`. -/
def loopBody (args : List String) (st : LoopState) (h : st.i < args.length) : LoopState :=
  let arg := args[st.i]
  if flagsWithValue arg then
    -- ask flag with value (-m opus)
    let flags := st.flags ++ [arg]
    if h1 : st.i + 1 < args.length then
      { st with i := st.i + 1 + 1, flags := flags ++ [args[st.i + 1]] }
    else
      { st with i := st.i + 1, flags := flags }
  else if knownBoolFlags arg || isKnownBoolFlagWithValue arg then
    -- ask bool flag
    { st with i := st.i + 1, flags := st.flags ++ [arg] }
  else if HasPrefix arg "-" then
    -- unknown flag: passthrough
    let passthrough := st.passthrough ++ [arg]
    if Contains arg "=" then
      { st with i := st.i + 1, passthrough := passthrough }
    else if h2 : st.i + 1 < args.length then
      if !HasPrefix args[st.i + 1] "-" then
        { st with i := st.i + 1 + 1, passthrough := passthrough ++ [args[st.i + 1]] }
      else
        { st with i := st.i + 1, passthrough := passthrough }
    else
      { st with i := st.i + 1, passthrough := passthrough }
  else
    -- positional arg (prompt word)
    { st with i := st.i + 1, positional := st.positional ++ [arg] }

/-- The `for` loop of `reorderArgs`, run for at most `fuel` iterations; it
stops as soon as the condition `i < len(args)` fails. -/
def loop (args : List String) : Nat → LoopState → LoopState
  | 0, st => st
  | fuel + 1, st =>
    if h : st.i < args.length then loop args fuel (loopBody args st h) else st

/-- State in which `reorderArgs` enters its loop: `flags` and `positional` are
nil and the statement `passthrough = nil` has overwritten the previous content
`old` of the package-level variable. -/
def entryState (old : List String) : LoopState :=
  let st : LoopState := { i := 0, flags := [], positional := [], passthrough := old }
  { st with passthrough := [] }

/-- State in which the loop of `reorderArgs` ends.  Every iteration advances
`i`, so `len(args)` iterations are enough: `loop_classifyRef` shows that with
this much fuel or more the loop stops by its condition, at `i = len(args)`. -/
def finalState (args : List String) (old : List String) : LoopState :=
  loop args args.length (entryState old)

/-- The function `reorderArgs` of `main.go`, as a state transformer on the
package-level variable `passthrough`: the returned list and the new content
of `passthrough`. -/
def reorderArgs (args : List String) (old : List String) : List String × List String :=
  let st := finalState args old
  if st.positional.length = 0 then
    (st.flags, st.passthrough)
  else
    (([] ++ st.flags) ++ ["--"] ++ st.positional, st.passthrough)

/-! ## Reference classifier, following the wording of the specification -/

/-- The three buckets of a classification. -/
structure Buckets where
  flags : List String
  pass : List String
  positional : List String
  deriving DecidableEq, Repr

/-- Prepend tokens to the flags bucket. -/
def Buckets.addFlags (ts : List String) (b : Buckets) : Buckets :=
  { b with flags := ts ++ b.flags }

/-- Prepend tokens to the pass-through bucket. -/
def Buckets.addPass (ts : List String) (b : Buckets) : Buckets :=
  { b with pass := ts ++ b.pass }

/-- Prepend a token to the positional bucket. -/
def Buckets.addPositional (t : String) (b : Buckets) : Buckets :=
  { b with positional := t :: b.positional }

/-- The token starts with a hyphen. -/
def startsWithDash (t : String) : Bool :=
  t.data.head? == some '-'

/-- The token contains an equals sign. -/
def hasEq (t : String) : Bool :=
  t.data.contains '='

/-- The token has the form `known-bool-flag=anything`, the flag name being the
substring before the first `=`. -/
def boolFlagBeforeEq (t : String) : Bool :=
  hasEq t && knownBoolFlags ⟨t.data.takeWhile (fun c => c != '=')⟩

/-- Single left-to-right classifier as the specification words it. -/
def classifyRef : List String → Buckets
  | [] => ⟨[], [], []⟩
  | [t] =>
    if t = "-m" ∨ t = "--model" then ⟨[t], [], []⟩
    else if knownBoolFlags t || boolFlagBeforeEq t then ⟨[t], [], []⟩
    else if startsWithDash t then ⟨[], [t], []⟩
    else ⟨[], [], [t]⟩
  | t :: v :: rest =>
    if t = "-m" ∨ t = "--model" then
      (classifyRef rest).addFlags [t, v]
    else if knownBoolFlags t || boolFlagBeforeEq t then
      (classifyRef (v :: rest)).addFlags [t]
    else if startsWithDash t then
      if !hasEq t && !startsWithDash v then
        (classifyRef rest).addPass [t, v]
      else
        (classifyRef (v :: rest)).addPass [t]
    else
      (classifyRef (v :: rest)).addPositional t

/-- The buckets with which the loop of `reorderArgs` ends. -/
def loopBuckets (args : List String) : Buckets :=
  let st := finalState args []
  ⟨st.flags, st.passthrough, st.positional⟩

/-- Test of the second branch of `reorderArgs`. -/
def isBoolFlag (t : String) : Bool :=
  knownBoolFlags t || isKnownBoolFlagWithValue t

/-- State reached from `st` once the rest of the input has been classified
into `b` and the index stands at `n`. -/
def LoopState.extend (st : LoopState) (n : Nat) (b : Buckets) : LoopState :=
  { i := n, flags := st.flags ++ b.flags, positional := st.positional ++ b.positional,
    passthrough := st.passthrough ++ b.pass }

/-- The scenario input of the specification. -/
def scenarioArgs : List String :=
  ["-m", "opus", "--raw", "-x", "val", "fix", "the", "-1", "bug"]

/-- The bucket a position of the input is placed in. -/
inductive Slot where
  | flags
  | pass
  | positional
  deriving DecidableEq, Repr

/-- The tokens of `args` whose position carries the label `s`, in input
order. -/
def pick (s : Slot) : List String → List Slot → List String
  | t :: ts, l :: ls => if l = s then t :: pick s ts ls else pick s ts ls
  | _, _ => []

/-- What the token `t` at index `k` of a flags bucket `F` may be: `-m` or
`--model`, a known boolean flag, a token `flag=anything` whose part before
the first `=` is a known boolean flag, or the token right after a `-m` or
`--model` in the bucket. -/
def AllowedFlagToken (F : List String) (k : Nat) (t : String) : Prop :=
  flagsWithValue t = true ∨
  knownBoolFlags t = true ∨
  (∃ pre post : List Char, t.data = pre ++ '=' :: post ∧ '=' ∉ pre ∧
    knownBoolFlags ⟨pre⟩ = true) ∨
  (∃ j m, k = j + 1 ∧ F[j]? = some m ∧ flagsWithValue m = true)

/-! ## The gate of `main` -/

/-- The map `knownSubcommands`: cobra subcommand names and aliases.  A lookup
of an absent key yields `false`. -/
def knownSubcommands (s : String) : Bool :=
  s == "history" || s == "h" ||
  s == "config" ||
  s == "models" ||
  s == "help"

/-- The `range` loop of `firstPositionalArg` over the arguments still to be
read, `skip` being its local variable. -/
def firstPositionalArgFrom : Bool → List String → String
  | _, [] => ""
  | skip, arg :: rest =>
    if skip then
      firstPositionalArgFrom false rest
    else if flagsWithValue arg then
      firstPositionalArgFrom true rest
    else if HasPrefix arg "-" then
      firstPositionalArgFrom false rest
    else
      arg

/-- The function `firstPositionalArg` of `main.go`: the first non-flag
argument, skipping flag values. -/
def firstPositionalArg (args : List String) : String :=
  firstPositionalArgFrom false args

/-- The condition under which `main` calls `reorderArgs`. -/
def mainReorders (args : List String) : Bool :=
  firstPositionalArg args != "" && !knownSubcommands (firstPositionalArg args)

/-- The argument list the strict parser reads after `main`.  When the gate
opens, `rootCmd.SetArgs` receives the result of `reorderArgs`; that result is
the nil slice exactly when it is empty (it is then `flags`, to which nothing
was appended), and with nil arguments set cobra parses `os.Args[1:]`, as it
does when `SetArgs` is not called.  When the gate is closed `SetArgs` is not
called and the raw arguments are parsed. -/
def mainArgs (args : List String) (old : List String) : List String :=
  if mainReorders args then
    let out := (reorderArgs args old).1
    if out.length = 0 then args else out
  else
    args

/-- Left-to-right reading of an argument list by the strict parser, with the
flags that `main.go` lists as known to it: `skip` says that the token read
next is the value of a `-m` or `--model`.  The reading ends at `"--"`; a known
boolean flag, with or without `=value`, stands alone; a token without a
leading hyphen is a positional argument; any other token with a leading hyphen
is an unrecognised flag, and the result is `true` when one is met. -/
def meetsUnknownFlagFrom : Bool → List String → Bool
  | _, [] => false
  | true, _ :: rest => meetsUnknownFlagFrom false rest
  | false, t :: rest =>
    if t == "--" then false
    else if flagsWithValue t then meetsUnknownFlagFrom true rest
    else if isBoolFlag t then meetsUnknownFlagFrom false rest
    else if HasPrefix t "-" then true
    else meetsUnknownFlagFrom false rest

/-- The strict parser, reading the argument list from its start, meets an
unrecognised flag. -/
def meetsUnknownFlag (args : List String) : Bool :=
  meetsUnknownFlagFrom false args

/-! ## Providers (`provider_anthropic.go`, `provider_gemini.go`, `provider_openai.go`) -/

/-- The struct `openaiCompatProvider`: a provider for OpenAI-compatible APIs.
The Go map `aliases` is kept as the list of its key-value pairs. -/
structure openaiCompatProvider where
  name : String
  envKey : String
  defaultURL : String
  aliases : List (String × String)
  aliasList : List String
  defaultMdl : String
  deriving DecidableEq, Repr

/-- The implementations of the `Provider` interface: `anthropicProvider{}`,
`geminiProvider{}` and the values of `openaiCompatProvider`. -/
inductive Provider where
  | anthropic
  | gemini
  | openaiCompat (p : openaiCompatProvider)
  deriving DecidableEq, Repr

/-- The map literal `aliases` of `anthropicProvider.ResolveModel`. -/
def anthropicAliases : List (String × String) :=
  [("opus", "claude-opus-4-5-20251101"),
   ("sonnet", "claude-sonnet-4-5-20250929"),
   ("haiku", "claude-haiku-4-5-20251001")]

/-- The map literal `aliases` of `geminiProvider.ResolveModel`. -/
def geminiAliases : List (String × String) :=
  [("flash", "gemini-2.5-flash"),
   ("pro", "gemini-2.5-pro"),
   ("flash-lite", "gemini-2.0-flash-lite")]

/-- The provider registered under the name `openai`. -/
def openaiProvider : openaiCompatProvider :=
  { name := "openai"
    envKey := "OPENAI_API_KEY"
    defaultURL := "https://api.openai.com/v1"
    aliases := [("gpt4o", "gpt-4o"), ("gpt4o-mini", "gpt-4o-mini"),
      ("o3-mini", "o3-mini"), ("o4-mini", "o4-mini")]
    aliasList := ["gpt4o", "gpt4o-mini", "o3-mini", "o4-mini"]
    defaultMdl := "gpt4o" }

/-- The provider registered under the name `xai`. -/
def xaiProvider : openaiCompatProvider :=
  { name := "xai"
    envKey := "XAI_API_KEY"
    defaultURL := "https://api.x.ai/v1"
    aliases := [("grok3", "grok-3-latest"), ("grok3-mini", "grok-3-mini-latest")]
    aliasList := ["grok3", "grok3-mini"]
    defaultMdl := "grok3" }

/-- The provider registered under the name `ollama`. -/
def ollamaProvider : openaiCompatProvider :=
  { name := "ollama"
    envKey := ""
    defaultURL := "http://localhost:11434/v1"
    aliases := [("llama3", "llama3"), ("qwen", "qwen3"), ("deepseek", "deepseek-r1")]
    aliasList := ["llama3", "qwen", "deepseek"]
    defaultMdl := "llama3" }

/-- The values handed to `registerProvider` by the `init` functions. -/
def registeredProviders : List Provider :=
  [.anthropic, .gemini, .openaiCompat openaiProvider, .openaiCompat xaiProvider,
   .openaiCompat ollamaProvider]

/-- Method `Name`. -/
def Provider.Name : Provider → String
  | .anthropic => "anthropic"
  | .gemini => "gemini"
  | .openaiCompat p => p.name

/-- Method `EnvKey`. -/
def Provider.EnvKey : Provider → String
  | .anthropic => "ANTHROPIC_API_KEY"
  | .gemini => "GEMINI_API_KEY"
  | .openaiCompat p => p.envKey

/-- Method `DefaultModel`. -/
def Provider.DefaultModel : Provider → String
  | .anthropic => "sonnet"
  | .gemini => "flash"
  | .openaiCompat p => p.defaultMdl

/-- Method `ModelAliases`. -/
def Provider.ModelAliases : Provider → List String
  | .anthropic => ["sonnet", "opus", "haiku"]
  | .gemini => ["flash", "pro", "flash-lite"]
  | .openaiCompat p => p.aliasList

/-- The alias table that `ResolveModel` of the provider looks into. -/
def Provider.aliasTable : Provider → List (String × String)
  | .anthropic => anthropicAliases
  | .gemini => geminiAliases
  | .openaiCompat p => p.aliases

/-- Method `ResolveModel`, its argument `alias` being named `key` here:
`if id, ok := aliases[alias]; ok { return id }`, else `return alias`. -/
def Provider.ResolveModel : Provider → String → String
  | .anthropic, key =>
    match anthropicAliases.lookup key with
    | some id => id
    | none => key
  | .gemini, key =>
    match geminiAliases.lookup key with
    | some id => id
    | none => key
  | .openaiCompat p, key =>
    match p.aliases.lookup key with
    | some id => id
    | none => key

/-! ## Requests built by `Run` -/

/-- The struct `FeatureFlags`. -/
structure FeatureFlags where
  Thinking : Bool
  WebSearch : Bool
  deriving DecidableEq, Repr

/-- Tools that `anthropicProvider.Run` may put into `params.Tools`. -/
inductive AnthropicTool where
  | webSearch20250305
  deriving DecidableEq, Repr

/-- What `anthropicProvider.Run` hands to the SDK: the client options and the
fields of `anthropic.MessageNewParams` that it sets. -/
structure AnthropicRequest where
  apiKey : String
  baseURL : Option String
  model : String
  maxTokens : Nat
  prompt : String
  thinkingBudget : Option Nat
  tools : List AnthropicTool
  deriving DecidableEq, Repr

/-- Tools that `geminiProvider.Run` may put into `config.Tools`. -/
inductive GeminiTool where
  | googleSearch
  deriving DecidableEq, Repr

/-- The fields of `genai.GenerateContentConfig` that `geminiProvider.Run`
sets. -/
structure GeminiConfig where
  thinkingBudget : Option Nat
  tools : List GeminiTool
  deriving DecidableEq, Repr

/-- What `geminiProvider.Run` hands to the SDK; `config` is `none` for the nil
pointer. -/
structure GeminiRequest where
  apiKey : String
  model : String
  prompt : String
  config : Option GeminiConfig
  deriving DecidableEq, Repr

/-- What `openaiCompatProvider.Run` hands to the SDK: the client options and
the fields of `openai.ChatCompletionNewParams` that it sets;
`webSearchContextSize` is `SearchContextSize` of `params.WebSearchOptions`
when that field is set. -/
structure OpenAIRequest where
  baseURL : String
  apiKey : Option String
  model : String
  prompt : String
  webSearchContextSize : Option String
  deriving DecidableEq, Repr

/-- The streaming request a provider issues. -/
inductive Request where
  | anthropic (r : AnthropicRequest)
  | gemini (r : GeminiRequest)
  | openai (r : OpenAIRequest)
  deriving DecidableEq, Repr

/-- The model ID in the request. -/
def Request.model : Request → String
  | .anthropic r => r.model
  | .gemini r => r.model
  | .openai r => r.model

/-- The request asks for extended reasoning: `params.Thinking` is set
(anthropic), `config.ThinkingConfig` is set (gemini); the OpenAI-compatible
request has no such field. -/
def Request.thinkingEnabled : Request → Bool
  | .anthropic r => r.thinkingBudget.isSome
  | .gemini r =>
    match r.config with
    | some c => c.thinkingBudget.isSome
    | none => false
  | .openai _ => false

/-- The request asks for web search: the web-search tool is among
`params.Tools` (anthropic), the Google-search tool is among `config.Tools`
(gemini), `params.WebSearchOptions` is set (OpenAI-compatible). -/
def Request.webSearchEnabled : Request → Bool
  | .anthropic r => r.tools.contains .webSearch20250305
  | .gemini r =>
    match r.config with
    | some c => c.tools.contains .googleSearch
    | none => false
  | .openai r => r.webSearchContextSize.isSome

/-- Method `Run` up to the call of `runStreaming`: the request that is
streamed, or the error returned before.  `clientErr` is the error of
`genai.NewClient`, which only `geminiProvider.Run` calls. -/
def Provider.Run (p : Provider) (prompt model apiKey baseURL : String)
    (features : FeatureFlags) (clientErr : Option String) : Except String Request :=
  match p with
  | .anthropic =>
    let modelID := p.ResolveModel model
    let modelID := if modelID == "" then p.ResolveModel p.DefaultModel else modelID
    let opts := if baseURL != "" then some baseURL else none
    let params : AnthropicRequest :=
      { apiKey := apiKey, baseURL := opts, model := modelID, maxTokens := 8192,
        prompt := prompt, thinkingBudget := none, tools := [] }
    let params :=
      if features.Thinking then { params with thinkingBudget := some 10000, maxTokens := 16000 }
      else params
    let params :=
      if features.WebSearch then { params with tools := params.tools ++ [.webSearch20250305] }
      else params
    .ok (.anthropic params)
  | .gemini =>
    let modelID := p.ResolveModel model
    let modelID := if modelID == "" then p.ResolveModel p.DefaultModel else modelID
    match clientErr with
    | some err => .error ("failed to create Gemini client: " ++ err)
    | none =>
      let config : Option GeminiConfig :=
        if features.Thinking || features.WebSearch then
          let c : GeminiConfig := { thinkingBudget := none, tools := [] }
          let c := if features.Thinking then { c with thinkingBudget := some 10000 } else c
          let c := if features.WebSearch then { c with tools := [.googleSearch] } else c
          some c
        else none
      .ok (.gemini { apiKey := apiKey, model := modelID, prompt := prompt, config := config })
  | .openaiCompat c =>
    let modelID := p.ResolveModel model
    let modelID := if modelID == "" then p.ResolveModel c.defaultMdl else modelID
    let baseURL := if baseURL == "" then c.defaultURL else baseURL
    let key := if apiKey != "" then some apiKey else none
    let params : OpenAIRequest :=
      { baseURL := baseURL, apiKey := key, model := modelID, prompt := prompt,
        webSearchContextSize := none }
    let params :=
      if features.WebSearch && c.name == "openai" then
        { params with webSearchContextSize := some "medium" }
      else params
    .ok (.openai params)

/-! ## `runAPI` (`api.go`) -/

/-- The fields of the struct `appConfig`. -/
structure appConfig where
  Mode : String
  Provider : String
  APIKey : String
  BaseURL : String
  DefaultModel : String
  RawOutput : Bool
  Theme : String
  Thinking : Bool
  WebSearch : Bool
  deriving DecidableEq, Repr

/-- Method `resolvedProvider`: the configured provider name, defaulting to
`anthropic`. -/
def appConfig.resolvedProvider (c : appConfig) : String :=
  if c.Provider == "" then "anthropic" else c.Provider

/-- Modelled from the spec: `getProvider` and the provider registry are not in
the sources at hand.  Given a provider name it resolves the registered
provider of that name or fails with the unknown-provider error. -/
def getProvider (registry : List Provider) (name : String) : Except String Provider :=
  match registry.find? (fun p => p.Name == name) with
  | some p => .ok p
  | none => .error ("unknown provider: " ++ name)

/-- Go `os.Getenv` on an environment given as name-value pairs: the value of
the variable, `""` when it is not set. -/
def Getenv (env : List (String × String)) (key : String) : String :=
  (env.lookup key).getD ""

/-- The package-level flag variables that `runAPI` reads. -/
structure CliFlags where
  thinkFlag : Bool
  searchFlag : Bool
  dryRun : Bool
  deriving DecidableEq, Repr

/-- The ways `runAPI` ends: the error of `getProvider`, the error for a
missing API key (naming the environment variable), the dry-run line printed,
or the call `p.Run(ctx, prompt, model, apiKey, cfg.BaseURL, features)`. -/
inductive ApiOutcome where
  | providerError (err : String)
  | missingCredential (envKey : String)
  | dryRunLine (providerName modelID : String) (features : FeatureFlags) (prompt : String)
  | run (p : Provider) (prompt model apiKey baseURL : String) (features : FeatureFlags)
  deriving DecidableEq, Repr

/-- The outcome is the missing-credential error. -/
def ApiOutcome.isMissingCredential : ApiOutcome → Bool
  | .missingCredential _ => true
  | _ => false

/-- The function `runAPI` of `api.go`. -/
def runAPI (registry : List Provider) (env : List (String × String)) (flags : CliFlags)
    (prompt model : String) (cfg : appConfig) : ApiOutcome :=
  let providerName := cfg.resolvedProvider
  match getProvider registry providerName with
  | .error err => .providerError err
  | .ok p =>
    let apiKey := Getenv env p.EnvKey
    let apiKey := if apiKey == "" then cfg.APIKey else apiKey
    if apiKey == "" && p.EnvKey != "" then
      .missingCredential p.EnvKey
    else
      let model := if model == "" then p.DefaultModel else model
      let modelID := p.ResolveModel model
      let features : FeatureFlags := { Thinking := flags.thinkFlag, WebSearch := flags.searchFlag }
      if flags.dryRun then
        .dryRunLine providerName modelID features prompt
      else
        .run p prompt model apiKey cfg.BaseURL features

/-- A configuration that selects the ollama provider. -/
def ollamaConfig : appConfig :=
  { Mode := "api", Provider := "ollama", APIKey := "", BaseURL := "", DefaultModel := "",
    RawOutput := false, Theme := "auto", Thinking := false, WebSearch := false }

/-! ## The configuration wizard (`config_init.go`) -/

/-- The type `configStep` with its constants, in `iota` order. -/
inductive configStep where
  | stepMode
  | stepProvider
  | stepAPIKey
  | stepBaseURL
  | stepModel
  | stepRawOutput
  | stepTheme
  | stepThinking
  | stepWebSearch
  | stepConfirm
  deriving DecidableEq, Repr

/-- The echo modes of `textinput` that the wizard sets. -/
inductive EchoMode where
  | EchoNormal
  | EchoPassword
  deriving DecidableEq, Repr

/-- The fields of `textinput.Model` that the wizard sets and reads. -/
structure TextInput where
  value : String
  Placeholder : String
  EchoMode : EchoMode
  EchoCharacter : Nat
  deriving DecidableEq, Repr

/-- The key types of `tea.KeyMsg` that the wizard tells apart; `KeyOther`
stands for every other type. -/
inductive KeyType where
  | KeyUp
  | KeyDown
  | KeyEnter
  | KeyEsc
  | KeyCtrlC
  | KeyOther
  deriving DecidableEq, Repr

/-- A `tea.KeyMsg`: its `Type` and the result of its method `String()`. -/
structure KeyMsg where
  type : KeyType
  string : String
  deriving DecidableEq, Repr

/-- The messages `Update` receives: `tea.WindowSizeMsg`, `tea.KeyMsg`, and any
other message. -/
inductive Msg where
  | WindowSizeMsg (Width Height : Int)
  | KeyMsg (msg : KeyMsg)
  | other
  deriving DecidableEq, Repr

/-- The commands `Update` returns: nil, `tea.Quit`, or the command returned by
the text input. -/
inductive Cmd where
  | nil
  | Quit
  | ofInput
  deriving DecidableEq, Repr

/-- The struct `configWizard`. -/
structure configWizard where
  step : configStep
  cursor : Int
  input : TextInput
  config : appConfig
  width : Int
  height : Int
  done : Bool
  canceled : Bool
  deriving DecidableEq, Repr

/-- What the wizard takes from outside `config_init.go`: the result of
`providerNames()`, the registry behind `getProvider`, and the method `Update`
of the text input. -/
structure WizardEnv where
  providerNames : List String
  registry : List Provider
  inputUpdate : TextInput → Msg → TextInput

/-- The function `newConfigWizard`. -/
def newConfigWizard : configWizard :=
  { step := .stepMode
    cursor := 0
    input :=
      { value := "", Placeholder := "sk-ant-...", EchoMode := .EchoPassword,
        EchoCharacter := '*'.toNat }
    config :=
      { Mode := "cli", Provider := "", APIKey := "", BaseURL := "", DefaultModel := "",
        RawOutput := false, Theme := "auto", Thinking := true, WebSearch := false }
    width := 0
    height := 0
    done := false
    canceled := false }

/-- Method `nextAfterAPIKey`. -/
def configWizard.nextAfterAPIKey (m : configWizard) : configStep :=
  let prov := m.config.resolvedProvider
  if prov == "anthropic" || prov == "gemini" then .stepModel else .stepBaseURL

/-- Method `prepareBaseURLInput`. -/
def configWizard.prepareBaseURLInput (env : WizardEnv) (m : configWizard) : configWizard :=
  let input : TextInput :=
    { m.input with Placeholder := "", EchoMode := .EchoNormal, EchoCharacter := 0, value := "" }
  let input :=
    match getProvider env.registry m.config.resolvedProvider with
    | .ok (.openaiCompat ocp) => { input with value := ocp.defaultURL }
    | _ => input
  { m with input := input }

/-- Method `apiKeyPlaceholder`. -/
def configWizard.apiKeyPlaceholder (m : configWizard) : String :=
  let prov := m.config.resolvedProvider
  if prov == "anthropic" then "sk-ant-..."
  else if prov == "openai" then "sk-..."
  else if prov == "gemini" then "AI..."
  else if prov == "xai" then "xai-..."
  else ""

/-- Method `modelOptions`. -/
def configWizard.modelOptions (env : WizardEnv) (m : configWizard) : List String :=
  if m.config.Mode == "api" then
    match getProvider env.registry m.config.resolvedProvider with
    | .ok p => p.ModelAliases
    | .error _ => ["sonnet", "opus", "haiku"]
  else
    ["sonnet", "opus", "haiku"]

/-- Method `currentOptions`. -/
def configWizard.currentOptions (env : WizardEnv) (m : configWizard) : List String :=
  match m.step with
  | .stepMode => ["cli", "api"]
  | .stepProvider => env.providerNames
  | .stepModel => m.modelOptions env
  | .stepRawOutput => ["false", "true"]
  | .stepTheme => ["auto", "dark", "light", "dracula", "pink", "ascii", "notty"]
  | .stepThinking => ["true", "false"]
  | .stepWebSearch => ["false", "true"]
  | .stepConfirm => ["Save", "Cancel"]
  | _ => []

/-- Go index expression `opts[i]` on a slice of strings with an `int` index:
`none` stands for the run-time panic when the index is out of range. -/
def indexOpts (opts : List String) (i : Int) : Option String :=
  if 0 ≤ i ∧ i < opts.length then opts[i.toNat]? else none

/-- Method `confirmSelection`; `none` when an index expression panics. -/
def configWizard.confirmSelection (env : WizardEnv) (m : configWizard) :
    Option (configWizard × Cmd) :=
  let opts := m.currentOptions env
  match m.step with
  | .stepMode =>
    match indexOpts opts m.cursor with
    | none => none
    | some o =>
      let m := { m with config := { m.config with Mode := o } }
      let m :=
        if m.config.Mode == "api" then { m with step := .stepProvider }
        else
          let m := { m with config := { m.config with Provider := "", APIKey := "", BaseURL := "" } }
          { m with step := .stepModel }
      some ({ m with cursor := 0 }, .nil)
  | .stepProvider =>
    match indexOpts opts m.cursor with
    | none => none
    | some o =>
      let m := { m with config := { m.config with Provider := o } }
      let m :=
        if m.config.Provider == "ollama" then
          let m := { m with config := { m.config with APIKey := "" } }
          let m := { m with step := .stepBaseURL, cursor := 0 }
          m.prepareBaseURLInput env
        else
          let m := { m with step := .stepAPIKey }
          let input := { m.input with value := "", EchoMode := .EchoPassword }
          let input := { input with EchoCharacter := '*'.toNat }
          { m with input := { input with Placeholder := m.apiKeyPlaceholder } }
      some ({ m with cursor := 0 }, .nil)
  | .stepModel =>
    match indexOpts opts m.cursor with
    | none => none
    | some o =>
      let m := { m with config := { m.config with DefaultModel := o } }
      some ({ m with step := .stepRawOutput, cursor := 0 }, .nil)
  | .stepRawOutput =>
    match indexOpts opts m.cursor with
    | none => none
    | some o =>
      let m := { m with config := { m.config with RawOutput := o == "true" } }
      some ({ m with step := .stepTheme, cursor := 0 }, .nil)
  | .stepTheme =>
    match indexOpts opts m.cursor with
    | none => none
    | some o =>
      let m := { m with config := { m.config with Theme := o } }
      let m :=
        if m.config.Mode == "api" then { m with step := .stepThinking }
        else { m with step := .stepConfirm }
      some ({ m with cursor := 0 }, .nil)
  | .stepThinking =>
    match indexOpts opts m.cursor with
    | none => none
    | some o =>
      let m := { m with config := { m.config with Thinking := o == "true" } }
      some ({ m with step := .stepWebSearch, cursor := 0 }, .nil)
  | .stepWebSearch =>
    match indexOpts opts m.cursor with
    | none => none
    | some o =>
      let m := { m with config := { m.config with WebSearch := o == "true" } }
      some ({ m with step := .stepConfirm, cursor := 0 }, .nil)
  | .stepConfirm =>
    match indexOpts opts m.cursor with
    | none => none
    | some o =>
      if o == "Cancel" then some ({ m with canceled := true }, .Quit)
      else some ({ m with done := true }, .Quit)
  | _ => some (m, .nil)

/-- Method `updateSelection`; `none` when an index expression panics. -/
def configWizard.updateSelection (env : WizardEnv) (m : configWizard) (msg : KeyMsg) :
    Option (configWizard × Cmd) :=
  let opts := m.currentOptions env
  match msg.type with
  | .KeyUp =>
    some (if m.cursor > 0 then { m with cursor := m.cursor - 1 } else m, .nil)
  | .KeyDown =>
    some (if m.cursor < (opts.length : Int) - 1 then { m with cursor := m.cursor + 1 } else m,
      .nil)
  | .KeyEnter => m.confirmSelection env
  | .KeyEsc => some ({ m with canceled := true }, .Quit)
  | .KeyCtrlC => some ({ m with canceled := true }, .Quit)
  | .KeyOther =>
    if msg.string == "k" then
      some (if m.cursor > 0 then { m with cursor := m.cursor - 1 } else m, .nil)
    else if msg.string == "j" then
      some (if m.cursor < (opts.length : Int) - 1 then { m with cursor := m.cursor + 1 }
        else m, .nil)
    else some (m, .nil)

/-- Method `updateTextInput`. -/
def configWizard.updateTextInput (env : WizardEnv) (m : configWizard) (msg : KeyMsg) :
    configWizard × Cmd :=
  match msg.type with
  | .KeyEnter =>
    if m.step = .stepAPIKey then
      let m := { m with config := { m.config with APIKey := m.input.value } }
      let m := { m with step := m.nextAfterAPIKey }
      let m := { m with cursor := 0 }
      (m.prepareBaseURLInput env, .nil)
    else if m.step = .stepBaseURL then
      let m := { m with config := { m.config with BaseURL := m.input.value } }
      ({ m with step := .stepModel, cursor := 0 }, .nil)
    else (m, .nil)
  | .KeyEsc => ({ m with canceled := true }, .Quit)
  | .KeyCtrlC => ({ m with canceled := true }, .Quit)
  | _ => ({ m with input := env.inputUpdate m.input (.KeyMsg msg) }, .ofInput)

/-- Method `Update`; `none` when an index expression panics. -/
def configWizard.Update (env : WizardEnv) (m : configWizard) (msg : Msg) :
    Option (configWizard × Cmd) :=
  match msg with
  | .WindowSizeMsg w h => some ({ m with width := w, height := h }, .nil)
  | .KeyMsg k =>
    if m.step = .stepAPIKey ∨ m.step = .stepBaseURL then some (m.updateTextInput env k)
    else m.updateSelection env k
  | .other =>
    if m.step = .stepAPIKey ∨ m.step = .stepBaseURL then
      some ({ m with input := env.inputUpdate m.input .other }, .ofInput)
    else some (m, .nil)

/-- One message delivered to the wizard by the runtime: the model that
`Update` returns replaces the current one; `none` once an `Update` has
panicked. -/
def deliver (env : WizardEnv) (st : Option configWizard) (msg : Msg) : Option configWizard :=
  match st with
  | none => none
  | some m =>
    match m.Update env msg with
    | none => none
    | some (m2, _) => some m2

/-- The wizard after the messages `msgs`, delivered in order to the model
returned by `newConfigWizard`. -/
def runWizard (env : WizardEnv) (msgs : List Msg) : Option configWizard :=
  msgs.foldl (deliver env) (some newConfigWizard)

/-- The step shows a list of options (it is not a text-input step). -/
def configStep.isSelection (s : configStep) : Bool :=
  !(s == .stepAPIKey || s == .stepBaseURL)

/-- The cursor is a valid index into the options of a selection step. -/
def configWizard.cursorInRange (env : WizardEnv) (m : configWizard) : Prop :=
  m.step.isSelection = true → 0 ≤ m.cursor ∧ m.cursor < ((m.currentOptions env).length : Int)

/-- An environment for the wizard with the five registered providers; the
text input is taken to append the text of a key. -/
def sampleEnv : WizardEnv :=
  { providerNames := ["anthropic", "gemini", "openai", "xai", "ollama"]
    registry := registeredProviders
    inputUpdate := fun ti msg =>
      match msg with
      | .KeyMsg k => { ti with value := ti.value ++ k.string }
      | _ => ti }

/-! ## String helper lemmas -/

theorem HasPrefix_dash (t : String) : HasPrefix t "-" = startsWithDash t := by
  unfold HasPrefix startsWithDash
  cases h : t.data with
  | nil => rfl
  | cons c cs =>
    show (['-'].isPrefixOf (c :: cs)) = _
    by_cases hc : c = '-'
    · subst hc; simp [List.isPrefixOf]
    · have hc2 : ¬ ('-' = c) := fun e => hc e.symm
      simp [List.isPrefixOf, hc, hc2]

theorem indexFrom_eq (l : List Char) (k : Nat) :
    indexFrom ['='] l k =
      if '=' ∈ l then ((k + (l.takeWhile (fun c => c != '=')).length : Nat) : Int) else -1 := by
  induction l generalizing k with
  | nil => simp [indexFrom, List.isPrefixOf]
  | cons c cs ih =>
    by_cases hc : c = '='
    · subst hc
      simp [indexFrom, List.isPrefixOf]
    · have hc2 : ¬ ('=' = c) := fun e => hc e.symm
      have hne : (c != '=') = true := by simpa using hc
      simp only [indexFrom, List.isPrefixOf, ih]
      simp only [List.takeWhile_cons, hne, if_true, List.length_cons, List.mem_cons,
        hc2, false_or, beq_iff_eq, Bool.and_true, decide_eq_true_eq, Bool.false_eq_true,
        if_false]
      split
      · congr 1; omega
      · rfl

theorem take_length_takeWhile (p : Char → Bool) (l : List Char) :
    l.take (l.takeWhile p).length = l.takeWhile p := by
  induction l with
  | nil => rfl
  | cons c cs ih =>
    by_cases hp : p c = true
    · simp [List.takeWhile, hp, ih]
    · simp [List.takeWhile, hp]

theorem Contains_eq (t : String) : Contains t "=" = hasEq t := by
  unfold Contains hasEq Index
  show decide (0 ≤ indexFrom ['='] t.data 0) = _
  rw [indexFrom_eq]
  by_cases h : '=' ∈ t.data
  · simp [h]
  · simp [h]

theorem knownBoolFlags_empty : knownBoolFlags ⟨[]⟩ = false := by decide

theorem isKnownBoolFlagWithValue_eq (t : String) :
    isKnownBoolFlagWithValue t = boolFlagBeforeEq t := by
  unfold isKnownBoolFlagWithValue boolFlagBeforeEq hasEq Index slicePrefix
  show (if indexFrom ['='] t.data 0 > 0 then _ else false) = _
  rw [indexFrom_eq]
  by_cases h : '=' ∈ t.data
  · simp only [h, if_true, List.contains_eq_any_beq]
    cases hl : (t.data.takeWhile (fun c => c != '=')) with
    | nil =>
      have : knownBoolFlags "" = false := knownBoolFlags_empty
      simp [this]
    | cons c cs =>
      have : t.data.take (c :: cs).length = c :: cs := by
        rw [← hl]; exact take_length_takeWhile _ _
      simp at this
      simp [this, h]
  · simp [h]

/-! ## Equations of the reference classifier, on the tests of the code -/

theorem flagsWithValue_iff (t : String) :
    flagsWithValue t = true ↔ (t = "-m" ∨ t = "--model") := by
  unfold flagsWithValue
  rw [Bool.or_eq_true, beq_iff_eq, beq_iff_eq]

theorem classifyRef_value_last (t : String) (h : flagsWithValue t = true) :
    classifyRef [t] = ⟨[t], [], []⟩ := by
  rw [flagsWithValue_iff] at h
  rw [classifyRef, if_pos h]

theorem classifyRef_value_pair (t v : String) (rest : List String)
    (h : flagsWithValue t = true) :
    classifyRef (t :: v :: rest) = (classifyRef rest).addFlags [t, v] := by
  rw [flagsWithValue_iff] at h
  rw [classifyRef, if_pos h]

theorem classifyRef_bool (t : String) (rest : List String)
    (h : flagsWithValue t = false) (hb : isBoolFlag t = true) :
    classifyRef (t :: rest) = (classifyRef rest).addFlags [t] := by
  have h0 : ¬ (t = "-m" ∨ t = "--model") := by
    rw [← flagsWithValue_iff, h]; simp
  rw [isBoolFlag, isKnownBoolFlagWithValue_eq] at hb
  cases rest with
  | nil => rw [classifyRef.eq_2, classifyRef.eq_1, if_neg h0, if_pos hb]; rfl
  | cons v rest => rw [classifyRef, if_neg h0, if_pos hb]

theorem classifyRef_pass_pair (t v : String) (rest : List String)
    (h : flagsWithValue t = false) (hb : isBoolFlag t = false)
    (hd : HasPrefix t "-" = true) (he : Contains t "=" = false)
    (hv : HasPrefix v "-" = false) :
    classifyRef (t :: v :: rest) = (classifyRef rest).addPass [t, v] := by
  have h0 : ¬ (t = "-m" ∨ t = "--model") := by
    rw [← flagsWithValue_iff, h]; simp
  rw [isBoolFlag, isKnownBoolFlagWithValue_eq] at hb
  rw [HasPrefix_dash] at hd hv
  rw [Contains_eq] at he
  rw [classifyRef, if_neg h0, if_neg (by rw [hb]; simp), if_pos hd, if_pos (by rw [he, hv]; rfl)]

theorem classifyRef_pass_alone (t : String) (rest : List String)
    (h : flagsWithValue t = false) (hb : isBoolFlag t = false)
    (hd : HasPrefix t "-" = true)
    (hv : Contains t "=" = true ∨ ∀ v ∈ rest.head?, HasPrefix v "-" = true) :
    classifyRef (t :: rest) = (classifyRef rest).addPass [t] := by
  have h0 : ¬ (t = "-m" ∨ t = "--model") := by
    rw [← flagsWithValue_iff, h]; simp
  rw [isBoolFlag, isKnownBoolFlagWithValue_eq] at hb
  rw [HasPrefix_dash] at hd
  rw [Contains_eq] at hv
  cases rest with
  | nil =>
    rw [classifyRef.eq_2, classifyRef.eq_1, if_neg h0, if_neg (by rw [hb]; simp), if_pos hd]; rfl
  | cons v rest =>
    have hc : ¬ ((!hasEq t && !startsWithDash v) = true) := by
      rcases hv with hv | hv
      · rw [hv]; simp
      · have := hv v (by simp)
        rw [HasPrefix_dash] at this
        rw [this]; simp
    rw [classifyRef, if_neg h0, if_neg (by rw [hb]; simp), if_pos hd, if_neg hc]

theorem classifyRef_positional (t : String) (rest : List String)
    (h : flagsWithValue t = false) (hb : isBoolFlag t = false)
    (hd : HasPrefix t "-" = false) :
    classifyRef (t :: rest) = (classifyRef rest).addPositional t := by
  have h0 : ¬ (t = "-m" ∨ t = "--model") := by
    rw [← flagsWithValue_iff, h]; simp
  rw [isBoolFlag, isKnownBoolFlagWithValue_eq] at hb
  rw [HasPrefix_dash] at hd
  cases rest with
  | nil =>
    rw [classifyRef.eq_2, classifyRef.eq_1, if_neg h0, if_neg (by rw [hb]; simp),
      if_neg (by rw [hd]; simp)]; rfl
  | cons v rest =>
    rw [classifyRef, if_neg h0, if_neg (by rw [hb]; simp), if_neg (by rw [hd]; simp)]

/-! ## The loop against the reference classifier -/

theorem LoopState.extend_nil (st : LoopState) :
    st.extend st.i ⟨[], [], []⟩ = st := by
  cases st; simp [LoopState.extend]

theorem loop_classifyRef (args : List String) :
    ∀ (fuel : Nat) (st : LoopState), st.i ≤ args.length → args.length - st.i ≤ fuel →
      loop args fuel st = st.extend args.length (classifyRef (args.drop st.i)) := by
  intro fuel
  induction fuel with
  | zero =>
    intro st hle hfuel
    have hi : st.i = args.length := by omega
    rw [loop, ← hi, List.drop_of_length_le (by omega), classifyRef, LoopState.extend_nil]
  | succ fuel ih =>
    intro st hle hfuel
    by_cases h : st.i < args.length
    · rw [loop, dif_pos h]
      have hd : args.drop st.i = args[st.i] :: args.drop (st.i + 1) :=
        List.drop_eq_getElem_cons h
      have hnext : ∀ st2 : LoopState, st2.i = st.i + 1 →
          loop args fuel st2 = st2.extend args.length (classifyRef (args.drop (st.i + 1))) := by
        intro st2 h2
        rw [ih st2 (by omega) (by omega), h2]
      have hnext2 : st.i + 1 < args.length → ∀ st2 : LoopState, st2.i = st.i + 1 + 1 →
          loop args fuel st2 =
            st2.extend args.length (classifyRef (args.drop (st.i + 1 + 1))) := by
        intro h1 st2 h2
        rw [ih st2 (by omega) (by omega), h2]
      rw [hd]
      unfold loopBody
      cases hf : flagsWithValue args[st.i] with
      | true =>
        by_cases h1 : st.i + 1 < args.length
        · have hd1 : args.drop (st.i + 1) = args[st.i + 1] :: args.drop (st.i + 1 + 1) :=
            List.drop_eq_getElem_cons h1
          simp only [hf, if_true, dif_pos h1]
          rw [hnext2 h1 _ rfl, hd1, classifyRef_value_pair _ _ _ hf]
          simp [LoopState.extend, Buckets.addFlags]
        · simp only [hf, if_true, dif_neg h1]
          rw [hnext _ rfl, List.drop_of_length_le (by omega), classifyRef_value_last _ hf,
            classifyRef]
          simp [LoopState.extend]
      | false =>
        cases hb : isBoolFlag args[st.i] with
        | true =>
          have hb2 := hb
          unfold isBoolFlag at hb2
          simp only [hf, Bool.false_eq_true, if_false, hb2, if_true]
          rw [hnext _ rfl, classifyRef_bool _ _ hf hb]
          simp [LoopState.extend, Buckets.addFlags]
        | false =>
          have hb2 := hb
          unfold isBoolFlag at hb2
          simp only [hf, Bool.false_eq_true, if_false, hb2]
          cases hp : HasPrefix args[st.i] "-" with
          | false =>
            simp only [hp, Bool.false_eq_true, if_false]
            rw [hnext _ rfl, classifyRef_positional _ _ hf hb hp]
            simp [LoopState.extend, Buckets.addPositional]
          | true =>
            simp only [hp, if_true]
            cases hc : Contains args[st.i] "=" with
            | true =>
              simp only [hc, if_true]
              rw [hnext _ rfl, classifyRef_pass_alone _ _ hf hb hp (Or.inl hc)]
              simp [LoopState.extend, Buckets.addPass]
            | false =>
              simp only [hc, Bool.false_eq_true, if_false]
              by_cases h1 : st.i + 1 < args.length
              · have hd1 : args.drop (st.i + 1) =
                    args[st.i + 1] :: args.drop (st.i + 1 + 1) :=
                  List.drop_eq_getElem_cons h1
                simp only [dif_pos h1]
                cases hv : HasPrefix args[st.i + 1] "-" with
                | false =>
                  simp only [hv, Bool.not_false, if_true]
                  rw [hnext2 h1 _ rfl, hd1, classifyRef_pass_pair _ _ _ hf hb hp hc hv]
                  simp [LoopState.extend, Buckets.addPass]
                | true =>
                  simp only [hv, Bool.not_true, Bool.false_eq_true, if_false]
                  have hv2 : ∀ v ∈ (args.drop (st.i + 1)).head?, HasPrefix v "-" = true := by
                    rw [hd1]
                    intro v hv3
                    rw [List.head?_cons, Option.mem_def, Option.some.injEq] at hv3
                    rw [← hv3]; exact hv
                  rw [hnext _ rfl, classifyRef_pass_alone _ _ hf hb hp (Or.inr hv2)]
                  simp [LoopState.extend, Buckets.addPass]
              · simp only [dif_neg h1]
                have hv2 : ∀ v ∈ (args.drop (st.i + 1)).head?, HasPrefix v "-" = true := by
                  rw [List.drop_of_length_le (by omega)]
                  intro v hv3
                  simp at hv3
                rw [hnext _ rfl, classifyRef_pass_alone _ _ hf hb hp (Or.inr hv2)]
                simp [LoopState.extend, Buckets.addPass]
    · have hi : st.i = args.length := by omega
      rw [loop, dif_neg h, ← hi, List.drop_of_length_le (by omega), classifyRef,
        LoopState.extend_nil]

theorem loopBuckets_eq (args : List String) : loopBuckets args = classifyRef args := by
  unfold loopBuckets finalState
  rw [loop_classifyRef args args.length (entryState []) (by simp [entryState])
    (by simp [entryState])]
  simp [LoopState.extend, entryState]

/-- Case analysis of the classifier, by the branch of `reorderArgs` that the
first token takes. -/
theorem classifyRef_induction {P : List String → Buckets → Prop}
    (nil : P [] ⟨[], [], []⟩)
    (valueLast : ∀ t, flagsWithValue t = true → P [t] ⟨[t], [], []⟩)
    (valuePair : ∀ t v rest b, flagsWithValue t = true → P rest b →
      P (t :: v :: rest) (b.addFlags [t, v]))
    (bool : ∀ t rest b, flagsWithValue t = false → isBoolFlag t = true → P rest b →
      P (t :: rest) (b.addFlags [t]))
    (passPair : ∀ t v rest b, flagsWithValue t = false → isBoolFlag t = false →
      HasPrefix t "-" = true → Contains t "=" = false → HasPrefix v "-" = false →
      P rest b → P (t :: v :: rest) (b.addPass [t, v]))
    (passAlone : ∀ t rest b, flagsWithValue t = false → isBoolFlag t = false →
      HasPrefix t "-" = true →
      (Contains t "=" = true ∨ ∀ v ∈ rest.head?, HasPrefix v "-" = true) →
      P rest b → P (t :: rest) (b.addPass [t]))
    (positional : ∀ t rest b, flagsWithValue t = false → isBoolFlag t = false →
      HasPrefix t "-" = false → P rest b → P (t :: rest) (b.addPositional t)) :
    ∀ args, P args (classifyRef args) := by
  suffices hall : ∀ n args, args.length = n → P args (classifyRef args) from
    fun args => hall _ args rfl
  intro n
  induction n using Nat.strong_induction_on with
  | _ n ih =>
    intro args h
    cases args with
    | nil => rw [classifyRef]; exact nil
    | cons t rest =>
      have ihr : P rest (classifyRef rest) :=
        ih rest.length (by rw [← h]; simp) rest rfl
      cases hf : flagsWithValue t with
      | true =>
        cases rest with
        | nil => rw [classifyRef_value_last _ hf]; exact valueLast t hf
        | cons v rest =>
          rw [classifyRef_value_pair _ _ _ hf]
          exact valuePair t v rest _ hf (ih rest.length (by rw [← h]; simp; omega) rest rfl)
      | false =>
        cases hb : isBoolFlag t with
        | true => rw [classifyRef_bool _ _ hf hb]; exact bool t rest _ hf hb ihr
        | false =>
          cases hp : HasPrefix t "-" with
          | false =>
            rw [classifyRef_positional _ _ hf hb hp]; exact positional t rest _ hf hb hp ihr
          | true =>
            cases hc : Contains t "=" with
            | true =>
              rw [classifyRef_pass_alone _ _ hf hb hp (Or.inl hc)]
              exact passAlone t rest _ hf hb hp (Or.inl hc) ihr
            | false =>
              cases rest with
              | nil =>
                have hv : ∀ v ∈ ([] : List String).head?, HasPrefix v "-" = true := by
                  intro v hv; simp at hv
                rw [classifyRef_pass_alone _ _ hf hb hp (Or.inr hv)]
                exact passAlone t [] _ hf hb hp (Or.inr hv) ihr
              | cons v rest =>
                cases hv : HasPrefix v "-" with
                | false =>
                  rw [classifyRef_pass_pair _ _ _ hf hb hp hc hv]
                  exact passPair t v rest _ hf hb hp hc hv
                    (ih rest.length (by rw [← h]; simp; omega) rest rfl)
                | true =>
                  have hv2 : ∀ w ∈ (v :: rest).head?, HasPrefix w "-" = true := by
                    intro w hw
                    rw [List.head?_cons, Option.mem_def, Option.some.injEq] at hw
                    rw [← hw]; exact hv
                  rw [classifyRef_pass_alone _ _ hf hb hp (Or.inr hv2)]
                  exact passAlone t (v :: rest) _ hf hb hp (Or.inr hv2) ihr

theorem reorderArgs_eq (args old : List String) :
    reorderArgs args old =
      (if (loopBuckets args).positional = [] then (loopBuckets args).flags
        else (loopBuckets args).flags ++ ["--"] ++ (loopBuckets args).positional,
       (loopBuckets args).pass) := by
  unfold reorderArgs loopBuckets finalState entryState
  simp only [List.length_eq_zero, List.nil_append]
  split <;> rfl

/-! ## Properties of `reorderArgs` -/

/-- C1 (as stated, refuted): on the scenario input the pass-through
accumulator is not `["-x","val"]`, the positional bucket is not
`["fix","the","-1","bug"]` and the returned list is not
`["-m","opus","--raw","--","fix","the","-1","bug"]`. -/
theorem reorderArgs_scenario_as_stated_fails :
    (reorderArgs scenarioArgs []).2 ≠ ["-x", "val"] ∧
    (loopBuckets scenarioArgs).positional ≠ ["fix", "the", "-1", "bug"] ∧
    (reorderArgs scenarioArgs []).1 ≠
      ["-m", "opus", "--raw", "--", "fix", "the", "-1", "bug"] := by
  decide

/-- C1 (amended): on the scenario input, whatever the accumulator held before,
`reorderArgs` produces the flags bucket `["-m","opus","--raw"]`, the
pass-through accumulator `["-x","val","-1","bug"]` (the token `-1` starts with
a hyphen, so it is an unknown flag and takes `bug` as its value), the
positional bucket `["fix","the"]`, and returns
`["-m","opus","--raw","--","fix","the"]`. -/
theorem reorderArgs_scenario (old : List String) :
    (loopBuckets scenarioArgs).flags = ["-m", "opus", "--raw"] ∧
    (reorderArgs scenarioArgs old).2 = ["-x", "val", "-1", "bug"] ∧
    (loopBuckets scenarioArgs).positional = ["fix", "the"] ∧
    (reorderArgs scenarioArgs old).1 = ["-m", "opus", "--raw", "--", "fix", "the"] := by
  have h : reorderArgs scenarioArgs old = reorderArgs scenarioArgs [] := rfl
  rw [h]
  decide

/-- C2: for every argument list the index-driven loop of `reorderArgs`, run
for `len(args)` iterations or more, has left the loop by its condition
(`i = len(args)`) and holds in `flags`, `passthrough` and `positional` exactly
the three buckets of the reference classifier `classifyRef`. -/
theorem reorderArgs_loop_refines_classifyRef (args old : List String) (extra : Nat) :
    (loop args (args.length + extra) (entryState old)).i = args.length ∧
    (loop args (args.length + extra) (entryState old)).flags = (classifyRef args).flags ∧
    (loop args (args.length + extra) (entryState old)).passthrough = (classifyRef args).pass ∧
    (loop args (args.length + extra) (entryState old)).positional
      = (classifyRef args).positional := by
  rw [loop_classifyRef args (args.length + extra) (entryState old) (by simp [entryState])
    (by simp [entryState])]
  simp [LoopState.extend, entryState]

theorem classifyRef_sublist (args : List String) :
    (classifyRef args).flags.Sublist args ∧ (classifyRef args).positional.Sublist args := by
  refine classifyRef_induction (P := fun a b => b.flags.Sublist a ∧ b.positional.Sublist a)
    ?_ ?_ ?_ ?_ ?_ ?_ ?_ args
  · exact ⟨List.Sublist.refl _, List.Sublist.refl _⟩
  · intro t _
    exact ⟨List.Sublist.refl _, List.nil_sublist _⟩
  · intro t v rest b _ ih
    exact ⟨(ih.1.cons₂ v).cons₂ t, (ih.2.cons v).cons t⟩
  · intro t rest b _ _ ih
    exact ⟨ih.1.cons₂ t, ih.2.cons t⟩
  · intro t v rest b _ _ _ _ _ ih
    exact ⟨(ih.1.cons v).cons t, (ih.2.cons v).cons t⟩
  · intro t rest b _ _ _ _ ih
    exact ⟨ih.1.cons t, ih.2.cons t⟩
  · intro t rest b _ _ _ ih
    exact ⟨ih.1.cons t, ih.2.cons₂ t⟩

/-- C3: for every argument list the list returned by `reorderArgs` is the flags
bucket when the positional bucket is empty and `flags ++ ["--"] ++ positional`
otherwise, and the flags bucket and the positional bucket are each a
subsequence of the input. -/
theorem reorderArgs_canonical_form (args old : List String) :
    (reorderArgs args old).1 =
      (if (loopBuckets args).positional = [] then (loopBuckets args).flags
        else (loopBuckets args).flags ++ ["--"] ++ (loopBuckets args).positional) ∧
    (loopBuckets args).flags.Sublist args ∧
    (loopBuckets args).positional.Sublist args := by
  refine ⟨by rw [reorderArgs_eq], ?_⟩
  rw [loopBuckets_eq]
  exact classifyRef_sublist args

theorem classifyRef_partition (args : List String) :
    ∃ lab : List Slot, lab.length = args.length ∧
      pick .flags args lab = (classifyRef args).flags ∧
      pick .pass args lab = (classifyRef args).pass ∧
      pick .positional args lab = (classifyRef args).positional := by
  refine classifyRef_induction
    (P := fun a b => ∃ lab : List Slot, lab.length = a.length ∧
      pick .flags a lab = b.flags ∧ pick .pass a lab = b.pass ∧
      pick .positional a lab = b.positional)
    ?_ ?_ ?_ ?_ ?_ ?_ ?_ args
  · exact ⟨[], rfl, rfl, rfl, rfl⟩
  · intro t _
    exact ⟨[.flags], rfl, rfl, rfl, rfl⟩
  · rintro t v rest b _ ⟨lab, hl, h1, h2, h3⟩
    exact ⟨.flags :: .flags :: lab, by simp [hl], by simp [pick, h1, Buckets.addFlags],
      by simp [pick, h2, Buckets.addFlags], by simp [pick, h3, Buckets.addFlags]⟩
  · rintro t rest b _ _ ⟨lab, hl, h1, h2, h3⟩
    exact ⟨.flags :: lab, by simp [hl], by simp [pick, h1, Buckets.addFlags],
      by simp [pick, h2, Buckets.addFlags], by simp [pick, h3, Buckets.addFlags]⟩
  · rintro t v rest b _ _ _ _ _ ⟨lab, hl, h1, h2, h3⟩
    exact ⟨.pass :: .pass :: lab, by simp [hl], by simp [pick, h1, Buckets.addPass],
      by simp [pick, h2, Buckets.addPass], by simp [pick, h3, Buckets.addPass]⟩
  · rintro t rest b _ _ _ _ ⟨lab, hl, h1, h2, h3⟩
    exact ⟨.pass :: lab, by simp [hl], by simp [pick, h1, Buckets.addPass],
      by simp [pick, h2, Buckets.addPass], by simp [pick, h3, Buckets.addPass]⟩
  · rintro t rest b _ _ _ ⟨lab, hl, h1, h2, h3⟩
    exact ⟨.positional :: lab, by simp [hl], by simp [pick, h1, Buckets.addPositional],
      by simp [pick, h2, Buckets.addPositional], by simp [pick, h3, Buckets.addPositional]⟩

theorem classifyRef_length (args : List String) :
    (classifyRef args).flags.length + (classifyRef args).pass.length +
      (classifyRef args).positional.length = args.length := by
  refine classifyRef_induction
    (P := fun a b => b.flags.length + b.pass.length + b.positional.length = a.length)
    ?_ ?_ ?_ ?_ ?_ ?_ ?_ args
  · rfl
  · intro t _; rfl
  · intro t v rest b _ ih
    simp only [Buckets.addFlags, List.length_append, List.length_cons, List.length_nil]
    omega
  · intro t rest b _ _ ih
    simp only [Buckets.addFlags, List.length_append, List.length_cons, List.length_nil]
    omega
  · intro t v rest b _ _ _ _ _ ih
    simp only [Buckets.addPass, List.length_append, List.length_cons, List.length_nil]
    omega
  · intro t rest b _ _ _ _ ih
    simp only [Buckets.addPass, List.length_append, List.length_cons, List.length_nil]
    omega
  · intro t rest b _ _ _ ih
    simp only [Buckets.addPositional, List.length_cons]
    omega

/-- C4: for every argument list there is a labelling of the input positions,
one bucket per position, such that each of the three buckets of `reorderArgs`
is exactly the input tokens at the positions labelled with it, in input order;
so no token is dropped or duplicated (a token is consumed at most once), and
the three bucket lengths sum to the input length. -/
theorem reorderArgs_buckets_partition (args : List String) :
    (∃ lab : List Slot, lab.length = args.length ∧
      pick .flags args lab = (loopBuckets args).flags ∧
      pick .pass args lab = (loopBuckets args).pass ∧
      pick .positional args lab = (loopBuckets args).positional) ∧
    (loopBuckets args).flags.length + (loopBuckets args).pass.length +
      (loopBuckets args).positional.length = args.length := by
  rw [loopBuckets_eq]
  exact ⟨classifyRef_partition args, classifyRef_length args⟩

theorem classifyRef_flags_only (args : List String) :
    (classifyRef args).pass = [] → (classifyRef args).positional = [] →
      (classifyRef args).flags = args := by
  refine classifyRef_induction
    (P := fun a b => b.pass = [] → b.positional = [] → b.flags = a)
    ?_ ?_ ?_ ?_ ?_ ?_ ?_ args
  · intro _ _; rfl
  · intro t _ _ _; rfl
  · intro t v rest b _ ih h1 h2
    simp only [Buckets.addFlags] at h1 h2 ⊢
    rw [ih h1 h2]; rfl
  · intro t rest b _ _ ih h1 h2
    simp only [Buckets.addFlags] at h1 h2 ⊢
    rw [ih h1 h2]; rfl
  · intro t v rest b _ _ _ _ _ _ h1 _
    simp [Buckets.addPass] at h1
  · intro t rest b _ _ _ _ _ h1 _
    simp [Buckets.addPass] at h1
  · intro t rest b _ _ _ _ _ h2
    simp [Buckets.addPositional] at h2

/-- C5: for every argument list in which `reorderArgs` classifies no token as
pass-through and none as positional, it returns the input list unchanged (so
without an inserted separator) and leaves the accumulator empty; and
`["--dry-run"]` is returned as `["--dry-run"]` with an empty accumulator. -/
theorem reorderArgs_only_known_flags (args old : List String)
    (hpass : (loopBuckets args).pass = [])
    (hpos : (loopBuckets args).positional = []) :
    reorderArgs args old = (args, []) ∧
    reorderArgs ["--dry-run"] old = (["--dry-run"], []) := by
  constructor
  · rw [reorderArgs_eq, hpass, if_pos hpos]
    rw [loopBuckets_eq] at hpass hpos ⊢
    rw [classifyRef_flags_only args hpass hpos]
  · rw [reorderArgs_eq]; decide

theorem reorderArgs_only_known_flags_witness :
    (loopBuckets ["--dry-run", "-m", "opus"]).pass = [] ∧
    (loopBuckets ["--dry-run", "-m", "opus"]).positional = [] ∧
    reorderArgs ["--dry-run", "-m", "opus"] ["stale"] = (["--dry-run", "-m", "opus"], []) :=
  ⟨by decide, by decide,
    (reorderArgs_only_known_flags ["--dry-run", "-m", "opus"] ["stale"]
      (by decide) (by decide)).1⟩

theorem classifyRef_idempotent (args : List String) :
    classifyRef (classifyRef args).flags = ⟨(classifyRef args).flags, [], []⟩ ∧
    classifyRef (classifyRef args).positional = ⟨[], [], (classifyRef args).positional⟩ := by
  refine classifyRef_induction
    (P := fun _ b => classifyRef b.flags = ⟨b.flags, [], []⟩ ∧
      classifyRef b.positional = ⟨[], [], b.positional⟩)
    ?_ ?_ ?_ ?_ ?_ ?_ ?_ args
  · exact ⟨by rw [classifyRef], by rw [classifyRef]⟩
  · intro t ht
    exact ⟨classifyRef_value_last t ht, by rw [classifyRef]⟩
  · intro t v rest b ht ih
    refine ⟨?_, ih.2⟩
    show classifyRef (t :: v :: b.flags) = _
    rw [classifyRef_value_pair _ _ _ ht, ih.1]; rfl
  · intro t rest b ht hb ih
    refine ⟨?_, ih.2⟩
    show classifyRef (t :: b.flags) = _
    rw [classifyRef_bool _ _ ht hb, ih.1]; rfl
  · intro t v rest b _ _ _ _ _ ih
    exact ih
  · intro t rest b _ _ _ _ ih
    exact ih
  · intro t rest b ht hb hp ih
    refine ⟨ih.1, ?_⟩
    show classifyRef (t :: b.positional) = _
    rw [classifyRef_positional _ _ ht hb hp, ih.2]; rfl

/-- C6: for every argument list with flags bucket `F` and positional bucket
`X`, classifying `F` alone gives flags bucket `F` with empty pass-through and
positional buckets, and classifying `X` alone gives positional bucket `X` with
empty flags and pass-through buckets. -/
theorem reorderArgs_idempotent (args : List String) :
    loopBuckets (loopBuckets args).flags = ⟨(loopBuckets args).flags, [], []⟩ ∧
    loopBuckets (loopBuckets args).positional = ⟨[], [], (loopBuckets args).positional⟩ := by
  rw [loopBuckets_eq, loopBuckets_eq, loopBuckets_eq]
  exact classifyRef_idempotent args

/-! ### Known flags start with a hyphen -/

theorem knownBoolFlags_iff (t : String) :
    knownBoolFlags t = true ↔
      (t = "--raw" ∨ t = "--dry-run" ∨ t = "--think" ∨ t = "--search" ∨
        t = "-h" ∨ t = "--help" ∨ t = "-v" ∨ t = "--version") := by
  unfold knownBoolFlags
  simp only [Bool.or_eq_true, beq_iff_eq, or_assoc]

theorem flagsWithValue_dash (t : String) (h : flagsWithValue t = true) :
    HasPrefix t "-" = true := by
  rw [flagsWithValue_iff] at h
  rcases h with h | h <;> subst h <;> decide

theorem knownBoolFlags_dash (t : String) (h : knownBoolFlags t = true) :
    HasPrefix t "-" = true := by
  rw [knownBoolFlags_iff] at h
  rcases h with h | h | h | h | h | h | h | h <;> subst h <;> decide

theorem head?_of_takeWhile (p : Char → Bool) (l : List Char) (c : Char)
    (h : (l.takeWhile p).head? = some c) : l.head? = some c := by
  cases l with
  | nil => simp at h
  | cons a as =>
    by_cases hp : p a = true
    · simpa [List.takeWhile, hp] using h
    · simp [List.takeWhile, hp] at h

theorem isBoolFlag_dash (t : String) (h : isBoolFlag t = true) :
    HasPrefix t "-" = true := by
  unfold isBoolFlag at h
  rw [Bool.or_eq_true] at h
  rcases h with h | h
  · exact knownBoolFlags_dash t h
  · rw [isKnownBoolFlagWithValue_eq, boolFlagBeforeEq, Bool.and_eq_true] at h
    have h2 := knownBoolFlags_dash _ h.2
    rw [HasPrefix_dash, startsWithDash, beq_iff_eq] at h2 ⊢
    exact head?_of_takeWhile _ _ _ h2

theorem split_at_first_eq (l : List Char) (h : '=' ∈ l) :
    ∃ post, l = l.takeWhile (fun c => c != '=') ++ '=' :: post ∧
      '=' ∉ l.takeWhile (fun c => c != '=') := by
  induction l with
  | nil => simp at h
  | cons a as ih =>
    by_cases ha : a = '='
    · subst ha
      exact ⟨as, by simp [List.takeWhile], by simp [List.takeWhile]⟩
    · have hne : (a != '=') = true := by simpa using ha
      have hmem : '=' ∈ as := by
        rcases List.mem_cons.1 h with h | h
        · exact absurd h.symm ha
        · exact h
      obtain ⟨post, h1, h2⟩ := ih hmem
      refine ⟨post, ?_, ?_⟩
      · rw [List.takeWhile_cons, if_pos hne, List.cons_append, ← h1]
      · rw [List.takeWhile_cons, if_pos hne, List.mem_cons]
        rintro (h3 | h3)
        · exact ha h3.symm
        · exact h2 h3

theorem isBoolFlag_cases (t : String) (h : isBoolFlag t = true) :
    knownBoolFlags t = true ∨
    (∃ pre post : List Char, t.data = pre ++ '=' :: post ∧ '=' ∉ pre ∧
      knownBoolFlags ⟨pre⟩ = true) := by
  unfold isBoolFlag at h
  rw [Bool.or_eq_true] at h
  rcases h with h | h
  · exact Or.inl h
  · rw [isKnownBoolFlagWithValue_eq, boolFlagBeforeEq, Bool.and_eq_true] at h
    have hmem : '=' ∈ t.data := by
      have := h.1
      unfold hasEq at this
      simpa using this
    obtain ⟨post, h1, h2⟩ := split_at_first_eq t.data hmem
    exact Or.inr ⟨_, post, h1, h2, h.2⟩

/-! ### What each bucket holds -/

theorem AllowedFlagToken.shift {F : List String} {k : Nat} {t : String} (a : String)
    (h : AllowedFlagToken F k t) : AllowedFlagToken (a :: F) (k + 1) t := by
  rcases h with h | h | h | ⟨j, m, hk, hj, hm⟩
  · exact Or.inl h
  · exact Or.inr (Or.inl h)
  · exact Or.inr (Or.inr (Or.inl h))
  · exact Or.inr (Or.inr (Or.inr ⟨j + 1, m, by omega, by simpa using hj, hm⟩))

theorem classifyRef_positional_no_dash (args : List String) :
    ∀ t ∈ (classifyRef args).positional, HasPrefix t "-" = false := by
  refine classifyRef_induction
    (P := fun _ b => ∀ t ∈ b.positional, HasPrefix t "-" = false)
    ?_ ?_ ?_ ?_ ?_ ?_ ?_ args
  · intro t ht; simp at ht
  · intro _ _ t ht; simp at ht
  · intro _ _ _ _ _ ih; exact ih
  · intro _ _ _ _ _ ih; exact ih
  · intro _ _ _ _ _ _ _ _ _ ih; exact ih
  · intro _ _ _ _ _ _ _ ih; exact ih
  · intro t rest b _ _ hp ih u hu
    rcases List.mem_cons.1 hu with hu | hu
    · rw [hu]; exact hp
    · exact ih u hu

theorem classifyRef_flags_allowed (args : List String) :
    ∀ k t, (classifyRef args).flags[k]? = some t →
      AllowedFlagToken (classifyRef args).flags k t := by
  refine classifyRef_induction
    (P := fun _ b => ∀ k t, b.flags[k]? = some t → AllowedFlagToken b.flags k t)
    ?_ ?_ ?_ ?_ ?_ ?_ ?_ args
  · intro k t h; simp at h
  · intro t ht k u h
    cases k with
    | zero =>
      simp at h
      subst h
      exact Or.inl ht
    | succ k => simp at h
  · intro t v rest b ht ih k u h
    show AllowedFlagToken (t :: v :: b.flags) k u
    change (t :: v :: b.flags)[k]? = some u at h
    match k with
    | 0 =>
      simp at h
      subst h
      exact Or.inl ht
    | 1 =>
      simp at h
      subst h
      exact Or.inr (Or.inr (Or.inr ⟨0, t, rfl, rfl, ht⟩))
    | k + 2 =>
      simp at h
      exact ((ih k u h).shift v).shift t
  · intro t rest b _ hb ih k u h
    show AllowedFlagToken (t :: b.flags) k u
    change (t :: b.flags)[k]? = some u at h
    match k with
    | 0 =>
      simp at h
      subst h
      rcases isBoolFlag_cases t hb with h1 | h1
      · exact Or.inr (Or.inl h1)
      · exact Or.inr (Or.inr (Or.inl h1))
    | k + 1 =>
      simp at h
      exact (ih k u h).shift t
  · intro _ _ _ _ _ _ _ _ _ ih; exact ih
  · intro _ _ _ _ _ _ _ ih; exact ih
  · intro _ _ _ _ _ _ ih; exact ih

/-- C7 (as stated, refuted): for `["-m","--","x"]` a token is positional and
the returned list `["-m","--","--","x"]` contains `"--"` twice; for
`["-m","--"]` no token is positional and the returned list contains `"--"`. -/
theorem reorderArgs_separator_not_unique :
    (loopBuckets ["-m", "--", "x"]).positional ≠ [] ∧
    (reorderArgs ["-m", "--", "x"] []).1 = ["-m", "--", "--", "x"] ∧
    List.count "--" (reorderArgs ["-m", "--", "x"] []).1 = 2 ∧
    (loopBuckets ["-m", "--"]).positional = [] ∧
    "--" ∈ (reorderArgs ["-m", "--"] []).1 := by
  decide

/-- C7 (amended): for every argument list whose flags bucket does not hold
`"--"` (no `"--"` was consumed as the value of `-m`/`--model`), the list
returned by `reorderArgs` contains `"--"` exactly once when at least one token
is positional and not at all when none is. -/
theorem reorderArgs_separator_count (args old : List String)
    (h : "--" ∉ (loopBuckets args).flags) :
    List.count "--" (reorderArgs args old).1 =
      if (loopBuckets args).positional = [] then 0 else 1 := by
  have hpos : "--" ∉ (loopBuckets args).positional := by
    intro hmem
    rw [loopBuckets_eq] at hmem
    have := classifyRef_positional_no_dash args "--" hmem
    exact absurd this (by decide)
  rw [reorderArgs_eq]
  have hf : List.count "--" (loopBuckets args).flags = 0 := List.count_eq_zero.2 h
  have hp : List.count "--" (loopBuckets args).positional = 0 := List.count_eq_zero.2 hpos
  split
  · exact hf
  · rw [List.count_append, List.count_append, hf, hp]
    rfl

theorem reorderArgs_separator_count_witness :
    "--" ∉ (loopBuckets ["--raw", "-x", "1", "fix", "it"]).flags ∧
    List.count "--" (reorderArgs ["--raw", "-x", "1", "fix", "it"] []).1 =
      if (loopBuckets ["--raw", "-x", "1", "fix", "it"]).positional = [] then 0 else 1 :=
  ⟨by decide, reorderArgs_separator_count ["--raw", "-x", "1", "fix", "it"] [] (by decide)⟩

theorem meetsUnknownFlagFrom_no_dash (X : List String)
    (hX : ∀ t ∈ X, HasPrefix t "-" = false) (skip : Bool) :
    meetsUnknownFlagFrom skip X = false := by
  induction X generalizing skip with
  | nil => cases skip <;> rfl
  | cons t X ih =>
    have hX2 : ∀ u ∈ X, HasPrefix u "-" = false := fun u hu => hX u (List.mem_cons_of_mem _ hu)
    have ht : HasPrefix t "-" = false := hX t (List.mem_cons_self _ _)
    cases skip with
    | true => rw [meetsUnknownFlagFrom]; exact ih hX2 false
    | false =>
      have hf : flagsWithValue t = false := by
        cases h : flagsWithValue t with
        | false => rfl
        | true => rw [flagsWithValue_dash t h] at ht; exact absurd ht (by decide)
      have hb : isBoolFlag t = false := by
        cases h : isBoolFlag t with
        | false => rfl
        | true => rw [isBoolFlag_dash t h] at ht; exact absurd ht (by decide)
      rw [meetsUnknownFlagFrom]
      simp only [hf, hb, ht, Bool.false_eq_true, if_false]
      split
      · rfl
      · exact ih hX2 false

theorem separator_ne_of_flagsWithValue (t : String) (h : flagsWithValue t = true) :
    (t == "--") = false := by
  rw [flagsWithValue_iff] at h
  rcases h with h | h <;> subst h <;> decide

theorem separator_ne_of_isBoolFlag (t : String) (h : isBoolFlag t = true) :
    (t == "--") = false := by
  cases hs : (t == "--") with
  | false => rfl
  | true =>
    have ht : t = "--" := by simpa using hs
    subst ht
    exact absurd h (by decide)

theorem classifyRef_flags_read (args : List String) :
    ∀ X : List String, (∀ t ∈ X, HasPrefix t "-" = false) →
      meetsUnknownFlagFrom false ((classifyRef args).flags ++ X) = false ∧
      meetsUnknownFlagFrom false ((classifyRef args).flags ++ "--" :: X) = false := by
  refine classifyRef_induction
    (P := fun _ b => ∀ X : List String, (∀ t ∈ X, HasPrefix t "-" = false) →
      meetsUnknownFlagFrom false (b.flags ++ X) = false ∧
      meetsUnknownFlagFrom false (b.flags ++ "--" :: X) = false)
    ?_ ?_ ?_ ?_ ?_ ?_ ?_ args
  · intro X hX
    exact ⟨meetsUnknownFlagFrom_no_dash X hX false, by
      rw [List.nil_append, meetsUnknownFlagFrom]; rfl⟩
  · intro t ht X hX
    have hs := separator_ne_of_flagsWithValue t ht
    constructor
    · show meetsUnknownFlagFrom false (t :: X) = false
      rw [meetsUnknownFlagFrom]
      simp only [hs, ht, Bool.false_eq_true, if_false, if_true]
      exact meetsUnknownFlagFrom_no_dash X hX true
    · show meetsUnknownFlagFrom false (t :: "--" :: X) = false
      rw [meetsUnknownFlagFrom]
      simp only [hs, ht, Bool.false_eq_true, if_false, if_true]
      rw [meetsUnknownFlagFrom]
      exact meetsUnknownFlagFrom_no_dash X hX false
  · intro t v rest b ht ih X hX
    have hs := separator_ne_of_flagsWithValue t ht
    have hstep : ∀ Y, meetsUnknownFlagFrom false (t :: v :: Y) = meetsUnknownFlagFrom false Y := by
      intro Y
      rw [meetsUnknownFlagFrom]
      simp only [hs, ht, Bool.false_eq_true, if_false, if_true]
      rw [meetsUnknownFlagFrom]
    constructor
    · show meetsUnknownFlagFrom false (t :: v :: (b.flags ++ X)) = false
      rw [hstep]; exact (ih X hX).1
    · show meetsUnknownFlagFrom false (t :: v :: (b.flags ++ "--" :: X)) = false
      rw [hstep]; exact (ih X hX).2
  · intro t rest b ht hb ih X hX
    have hs := separator_ne_of_isBoolFlag t hb
    have hstep : ∀ Y, meetsUnknownFlagFrom false (t :: Y) = meetsUnknownFlagFrom false Y := by
      intro Y
      rw [meetsUnknownFlagFrom]
      simp only [hs, ht, hb, Bool.false_eq_true, if_false, if_true]
    constructor
    · show meetsUnknownFlagFrom false (t :: (b.flags ++ X)) = false
      rw [hstep]; exact (ih X hX).1
    · show meetsUnknownFlagFrom false (t :: (b.flags ++ "--" :: X)) = false
      rw [hstep]; exact (ih X hX).2
  · intro _ _ _ _ _ _ _ _ _ ih; exact ih
  · intro _ _ _ _ _ _ _ ih; exact ih
  · intro _ _ _ _ _ _ ih; exact ih

/-- C8 (as stated, refuted): the strict parser is handed an unrecognised flag.
For `["-x","val"]` the gate of `main` opens, `reorderArgs` puts both tokens
into the pass-through accumulator and returns the nil slice, so the parser
reads the raw `["-x","val"]`; for `["-x"]` the gate is closed and the parser
reads the raw `["-x"]`.  In both `-x` is the first token read and no known
flag. -/
theorem strict_parser_handed_unknown_flag :
    mainReorders ["-x", "val"] = true ∧
    reorderArgs ["-x", "val"] [] = ([], ["-x", "val"]) ∧
    mainArgs ["-x", "val"] [] = ["-x", "val"] ∧
    meetsUnknownFlag (mainArgs ["-x", "val"] []) = true ∧
    mainReorders ["-x"] = false ∧
    mainArgs ["-x"] [] = ["-x"] ∧
    meetsUnknownFlag (mainArgs ["-x"] []) = true := by
  decide

/-- C8 (amended): for every argument list, every token of the flags bucket is
`-m` or `--model`, a known boolean flag, a token whose part before its first
`=` is a known boolean flag, or the token right after a `-m`/`--model` in the
bucket; no token of the positional bucket starts with a hyphen; and a strict
parser reading the list that `reorderArgs` returns meets no unrecognised
flag. -/
theorem reorderArgs_emits_only_known_flags (args old : List String) :
    (∀ k t, (loopBuckets args).flags[k]? = some t →
      AllowedFlagToken (loopBuckets args).flags k t) ∧
    (∀ t ∈ (loopBuckets args).positional, HasPrefix t "-" = false) ∧
    meetsUnknownFlag (reorderArgs args old).1 = false := by
  rw [reorderArgs_eq, loopBuckets_eq]
  refine ⟨classifyRef_flags_allowed args, classifyRef_positional_no_dash args, ?_⟩
  have hX := classifyRef_positional_no_dash args
  have hread := classifyRef_flags_read args (classifyRef args).positional hX
  unfold meetsUnknownFlag
  split
  · next hnil =>
    have := (classifyRef_flags_read args [] (by intro t ht; simp at ht)).1
    rwa [List.append_nil] at this
  · have := hread.2
    simpa using this

theorem classifyRef_all_positional (args : List String) :
    (∀ t ∈ args, HasPrefix t "-" = false) → classifyRef args = ⟨[], [], args⟩ := by
  refine classifyRef_induction
    (P := fun a b => (∀ t ∈ a, HasPrefix t "-" = false) → b = ⟨[], [], a⟩)
    ?_ ?_ ?_ ?_ ?_ ?_ ?_ args
  · intro _; rfl
  · intro t ht h
    have := h t (by simp)
    rw [flagsWithValue_dash t ht] at this
    exact absurd this (by decide)
  · intro t v rest b ht _ h
    have := h t (by simp)
    rw [flagsWithValue_dash t ht] at this
    exact absurd this (by decide)
  · intro t rest b _ hb _ h
    have := h t (by simp)
    rw [isBoolFlag_dash t hb] at this
    exact absurd this (by decide)
  · intro t v rest b _ _ hp _ _ _ h
    have := h t (by simp)
    rw [hp] at this
    exact absurd this (by decide)
  · intro t rest b _ _ hp _ _ h
    have := h t (by simp)
    rw [hp] at this
    exact absurd this (by decide)
  · intro t rest b _ _ _ ih h
    rw [ih (fun u hu => h u (List.mem_cons_of_mem _ hu))]
    rfl

/-- C9: for every non-empty argument list in which no token starts with a
hyphen, `reorderArgs` returns `"--"` followed by the input tokens in their
original order and leaves the pass-through accumulator empty. -/
theorem reorderArgs_all_positional (args old : List String)
    (hne : args ≠ [])
    (hdash : ∀ t ∈ args, HasPrefix t "-" = false) :
    reorderArgs args old = ("--" :: args, []) := by
  rw [reorderArgs_eq, loopBuckets_eq, classifyRef_all_positional args hdash]
  simp [hne]

theorem reorderArgs_all_positional_witness :
    ["fix", "the", "bug"] ≠ [] ∧
    (∀ t ∈ ["fix", "the", "bug"], HasPrefix t "-" = false) ∧
    reorderArgs ["fix", "the", "bug"] ["stale"] = (["--", "fix", "the", "bug"], []) :=
  ⟨by decide, by decide,
    reorderArgs_all_positional ["fix", "the", "bug"] ["stale"] (by decide) (by decide)⟩

/-- C10: the pass-through accumulator after `reorderArgs args` is the same for
any two contents it had before the call, and is the pass-through bucket of
`args`. -/
theorem reorderArgs_passthrough_reset (args old₁ old₂ : List String) :
    (reorderArgs args old₁).2 = (reorderArgs args old₂).2 ∧
    (reorderArgs args old₁).2 = (loopBuckets args).pass := by
  rw [reorderArgs_eq, reorderArgs_eq]
  exact ⟨rfl, rfl⟩

/-! ## A trailing value flag -/

theorem loopBody_index (args : List String) (st : LoopState) (h : st.i < args.length) :
    st.i < (loopBody args st h).i ∧ (loopBody args st h).i ≤ args.length := by
  unfold loopBody
  simp only
  repeat' split
  all_goals exact ⟨by dsimp only; omega, by dsimp only; omega⟩

theorem loop_add (args : List String) (f₁ f₂ : Nat) (st : LoopState) :
    loop args (f₁ + f₂) st = loop args f₂ (loop args f₁ st) := by
  induction f₁ generalizing st with
  | zero => simp [loop]
  | succ f ih =>
    rw [Nat.succ_add, loop, loop]
    by_cases h : st.i < args.length
    · rw [dif_pos h, dif_pos h, ih]
    · rw [dif_neg h, dif_neg h]
      cases f₂ with
      | zero => rfl
      | succ f₂ => rw [Nat.add_succ, loop, dif_neg h]


theorem loopBody_extend (args : List String) (st : LoopState) (h : st.i < args.length) :
    (loopBody args st h).extend args.length
        (classifyRef (args.drop (loopBody args st h).i)) =
      st.extend args.length (classifyRef (args.drop st.i)) := by
  have hi := loopBody_index args st h
  rw [← loop_classifyRef args args.length (loopBody args st h) hi.2 (by omega),
    ← loop_classifyRef args (args.length + 1) st (by omega) (by omega), loop, dif_pos h]

/-- A state of the loop whose index stands at `len(args)` holds the buckets of
the whole rest of the input. -/
theorem loop_done (args : List String) :
    ∀ (fuel : Nat) (st : LoopState), st.i ≤ args.length →
      (loop args fuel st).i = args.length →
      loop args fuel st = st.extend args.length (classifyRef (args.drop st.i)) := by
  intro fuel
  induction fuel with
  | zero =>
    intro st _ hi
    rw [loop] at hi ⊢
    rw [← hi, List.drop_of_length_le (by omega), classifyRef, LoopState.extend_nil]
  | succ fuel ih =>
    intro st hle hi
    by_cases h : st.i < args.length
    · rw [loop, dif_pos h] at hi ⊢
      rw [ih _ (loopBody_index args st h).2 hi, loopBody_extend]
    · rw [loop, dif_neg h] at hi ⊢
      rw [← hi, List.drop_of_length_le (by omega), classifyRef, LoopState.extend_nil]


theorem loop_of_le (args : List String) (fuel : Nat) (st : LoopState)
    (h : args.length ≤ st.i) : loop args fuel st = st := by
  cases fuel with
  | zero => rfl
  | succ fuel => rw [loop, dif_neg (by omega)]

theorem loopBody_append (pre : List String) (t : String) (st : LoopState)
    (h : st.i < pre.length) (h2 : st.i < (pre ++ [t]).length)
    (ht : HasPrefix t "-" = true) :
    loopBody (pre ++ [t]) st h2 = loopBody pre st h ∨
      (loopBody (pre ++ [t]) st h2).i = pre.length + 1 := by
  have e0 : (pre ++ [t])[st.i] = pre[st.i] := List.getElem_append_left h
  by_cases h1 : st.i + 1 < pre.length
  · left
    have h3 : st.i + 1 < (pre ++ [t]).length := by simp; omega
    have e1 : (pre ++ [t])[st.i + 1] = pre[st.i + 1] := List.getElem_append_left h1
    unfold loopBody
    simp only [e0, e1, dif_pos h1, dif_pos h3]
  · have h3 : st.i + 1 < (pre ++ [t]).length := by simp; omega
    have e1 : (pre ++ [t])[st.i + 1] = t := by
      rw [List.getElem_append_right (by omega)]
      simp
    cases hf : flagsWithValue pre[st.i] with
    | true =>
      right
      unfold loopBody
      simp only [e0, hf, if_true, dif_pos h3]
      omega
    | false =>
      left
      unfold loopBody
      simp only [e0, e1, hf, ht, dif_pos h3, dif_neg h1, Bool.false_eq_true, if_false,
        Bool.not_true]


theorem loop_append_agree (pre : List String) (t : String) (ht : HasPrefix t "-" = true) :
    ∀ (fuel : Nat) (st : LoopState), st.i ≤ pre.length →
      (loop (pre ++ [t]) fuel st).i = pre.length →
      loop (pre ++ [t]) fuel st = loop pre fuel st := by
  intro fuel
  induction fuel with
  | zero => intro st _ _; rfl
  | succ fuel ih =>
    intro st hle hi
    have h2 : st.i < (pre ++ [t]).length := by simp; omega
    rw [loop, dif_pos h2] at hi ⊢
    have hidx := loopBody_index (pre ++ [t]) st h2
    by_cases h : st.i < pre.length
    · rw [loop, dif_pos h]
      rcases loopBody_append pre t st h h2 ht with hb | hb
      · rw [hb] at hi ⊢
        exact ih _ (loopBody_index pre st h).2 hi
      · rw [loop_of_le _ _ _ (by rw [hb]; simp)] at hi
        omega
    · rw [loop_of_le _ _ _ (by simp at hidx ⊢; omega)] at hi
      omega

theorem classifyRef_append_value_flag (pre : List String) (t : String) (fuel : Nat)
    (ht : flagsWithValue t = true)
    (hvisit : (loop (pre ++ [t]) fuel (entryState [])).i = pre.length) :
    classifyRef (pre ++ [t]) =
      ⟨(classifyRef pre).flags ++ [t], (classifyRef pre).pass, (classifyRef pre).positional⟩ := by
  have hdash := flagsWithValue_dash t ht
  have h0 : (entryState []).i ≤ pre.length := by simp [entryState]
  have hagree := loop_append_agree pre t hdash fuel (entryState []) h0 hvisit
  have hs : loop (pre ++ [t]) fuel (entryState []) =
      (entryState []).extend pre.length (classifyRef pre) := by
    rw [hagree]
    rw [hagree] at hvisit
    exact loop_done pre fuel (entryState []) h0 hvisit
  have hsi : (loop (pre ++ [t]) fuel (entryState [])).i = pre.length := hvisit
  have hstep : loop (pre ++ [t]) (fuel + 1) (entryState []) =
      (loop (pre ++ [t]) fuel (entryState [])).extend (pre ++ [t]).length
        (classifyRef [t]) := by
    rw [loop_add, loop_classifyRef (pre ++ [t]) 1 _ (by rw [hsi]; simp)
      (by rw [hsi]; simp), hsi, List.drop_left]
  have hend : (loop (pre ++ [t]) (fuel + 1) (entryState [])).i = (pre ++ [t]).length := by
    rw [hstep]; rfl
  have hall := loop_done (pre ++ [t]) (fuel + 1) (entryState []) (by simp [entryState]) hend
  rw [hstep, hs, classifyRef_value_last t ht] at hall
  have h1 := congrArg LoopState.flags hall
  have h2 := congrArg LoopState.passthrough hall
  have h3 := congrArg LoopState.positional hall
  simp [LoopState.extend, entryState] at h1 h2 h3
  cases hc : classifyRef (pre ++ [t]) with
  | mk f p x =>
    rw [hc] at h1 h2 h3
    simp at h1 h2 h3
    rw [h1, h2, h3]

/-- C11: for every argument list `pre ++ [t]` whose last token `t` is `-m` or
`--model` and is examined by the loop as `arg` (after some number of
iterations the index stands at the last position, so no preceding flag took
`t` as its value), the loop of `reorderArgs` runs to its end, the flags bucket
is the flags bucket of `pre` followed by `t`, with `t` as its last element and
nothing after it, and the other two buckets are those of `pre`. -/
theorem reorderArgs_trailing_value_flag (pre : List String) (t : String)
    (old : List String) (fuel extra : Nat)
    (ht : flagsWithValue t = true)
    (hvisit : (loop (pre ++ [t]) fuel (entryState old)).i = pre.length) :
    (loop (pre ++ [t]) ((pre ++ [t]).length + extra) (entryState old)).i
      = (pre ++ [t]).length ∧
    (loopBuckets (pre ++ [t])).flags = (loopBuckets pre).flags ++ [t] ∧
    (loopBuckets (pre ++ [t])).flags.getLast? = some t ∧
    (loopBuckets (pre ++ [t])).pass = (loopBuckets pre).pass ∧
    (loopBuckets (pre ++ [t])).positional = (loopBuckets pre).positional := by
  have hv : (loop (pre ++ [t]) fuel (entryState [])).i = pre.length := hvisit
  have hc := classifyRef_append_value_flag pre t fuel ht hv
  refine ⟨?_, ?_, ?_, ?_, ?_⟩
  · rw [loop_classifyRef (pre ++ [t]) _ (entryState old) (by simp [entryState])
      (by simp [entryState])]
    rfl
  · rw [loopBuckets_eq, loopBuckets_eq, hc]
  · rw [loopBuckets_eq, hc]
    simp
  · rw [loopBuckets_eq, loopBuckets_eq, hc]
  · rw [loopBuckets_eq, loopBuckets_eq, hc]

theorem reorderArgs_trailing_value_flag_witness :
    flagsWithValue "--model" = true ∧
    (loop (["--raw", "-x", "1", "-m", "opus"] ++ ["--model"]) 3 (entryState [])).i
      = ["--raw", "-x", "1", "-m", "opus"].length ∧
    (loopBuckets (["--raw", "-x", "1", "-m", "opus"] ++ ["--model"])).flags
      = (loopBuckets ["--raw", "-x", "1", "-m", "opus"]).flags ++ ["--model"] :=
  ⟨by decide, by decide,
    (reorderArgs_trailing_value_flag ["--raw", "-x", "1", "-m", "opus"] "--model" [] 3 0
      (by decide) (by decide)).2.1⟩

/-! ## The gate of `main` against the classifier -/

theorem flagsWithValue_of_no_dash (t : String) (h : HasPrefix t "-" = false) :
    flagsWithValue t = false := by
  cases hf : flagsWithValue t with
  | false => rfl
  | true => rw [flagsWithValue_dash t hf] at h; exact absurd h (by decide)

/-- Without an empty token in the input the gate agrees with the classifier:
if `firstPositionalArg` returns `""`, no token is positional. -/
theorem firstPositionalArg_empty_no_positional (args : List String)
    (hne : "" ∉ args) (hfirst : firstPositionalArg args = "") :
    (loopBuckets args).positional = [] := by
  rw [loopBuckets_eq]
  revert hne hfirst
  unfold firstPositionalArg
  refine classifyRef_induction
    (P := fun a b => "" ∉ a → firstPositionalArgFrom false a = "" → b.positional = [])
    ?_ ?_ ?_ ?_ ?_ ?_ ?_ args
  · intro _ _; rfl
  · intro t _ _ _; rfl
  · intro t v rest b ht ih hne hfirst
    simp only [firstPositionalArgFrom, ht, Bool.false_eq_true, if_false, if_true] at hfirst
    exact ih (fun h => hne (by simp [h])) hfirst
  · intro t rest b ht hb ih hne hfirst
    simp only [firstPositionalArgFrom, ht, isBoolFlag_dash t hb, Bool.false_eq_true,
      if_false, if_true] at hfirst
    exact ih (fun h => hne (by simp [h])) hfirst
  · intro t v rest b ht _ hp _ hv _ hne hfirst
    simp only [firstPositionalArgFrom, ht, hp, hv, flagsWithValue_of_no_dash v hv,
      Bool.false_eq_true, if_false, if_true] at hfirst
    exact absurd (by simp [hfirst]) hne
  · intro t rest b ht _ hp _ ih hne hfirst
    simp only [firstPositionalArgFrom, ht, hp, Bool.false_eq_true, if_false, if_true]
      at hfirst
    exact ih (fun h => hne (by simp [h])) hfirst
  · intro t rest b ht _ hp _ hne hfirst
    simp only [firstPositionalArgFrom, ht, hp, Bool.false_eq_true, if_false] at hfirst
    exact absurd (by simp [hfirst]) hne

/-- C16 (violated by the code): for `["", "fix", "-1"]` `firstPositionalArg`
returns `""`, since the first non-flag argument is the empty string, so `main`
does not call `reorderArgs` and the strict parser receives the raw arguments
with the unknown flag `-1`; but `reorderArgs` classifies `""` and `"fix"` as
positional and would return `["--", "", "fix"]`. -/
theorem firstPositionalArg_empty_token_gate :
    firstPositionalArg ["", "fix", "-1"] = "" ∧
    mainReorders ["", "fix", "-1"] = false ∧
    mainArgs ["", "fix", "-1"] [] = ["", "fix", "-1"] ∧
    (loopBuckets ["", "fix", "-1"]).positional = ["", "fix"] ∧
    reorderArgs ["", "fix", "-1"] [] = (["--", "", "fix"], ["-1"]) := by
  decide

/-! ## Model resolution -/

theorem ResolveModel_eq (p : Provider) (s : String) :
    p.ResolveModel s = (p.aliasTable.lookup s).getD s := by
  cases p <;> simp only [Provider.ResolveModel, Provider.aliasTable] <;> split <;>
    simp [*]

/-- C12: for each of the five registered providers and every string `s`,
`ResolveModel` returns, when `s` is one of `ModelAliases()`, the entry of `s`
in the alias table, which is not empty; when `s` is not a key of the alias
table it returns `s` unchanged, as for `"totally-unknown-xyz"`; anthropic
resolves `"opus"` to `"claude-opus-4-5-20251101"` and ollama `"llama3"` to
`"llama3"`. -/
theorem ResolveModel_registered (p : Provider) (hp : p ∈ registeredProviders) (s : String) :
    (s ∈ p.ModelAliases →
      ∃ id, p.aliasTable.lookup s = some id ∧ p.ResolveModel s = id ∧ id ≠ "") ∧
    (s ∉ p.aliasTable.map Prod.fst → p.ResolveModel s = s) ∧
    p.ResolveModel "totally-unknown-xyz" = "totally-unknown-xyz" ∧
    Provider.anthropic.ResolveModel "opus" = "claude-opus-4-5-20251101" ∧
    (Provider.openaiCompat ollamaProvider).ResolveModel "llama3" = "llama3" := by
  refine ⟨?_, ?_, ?_, by decide, by decide⟩
  · intro hs
    simp only [registeredProviders, List.mem_cons, List.mem_singleton, List.mem_nil_iff,
      or_false] at hp
    rcases hp with rfl | rfl | rfl | rfl | rfl <;>
      simp only [Provider.ModelAliases, openaiProvider, xaiProvider, ollamaProvider,
        List.mem_cons, List.mem_singleton, List.mem_nil_iff, or_false] at hs <;>
      rcases hs with rfl | rfl | rfl | rfl <;>
      exact ⟨_, rfl, rfl, by decide⟩
  · intro hs
    rw [ResolveModel_eq]
    have : p.aliasTable.lookup s = none := by
      rw [List.lookup_eq_none_iff]
      intro a ha
      simp only [List.mem_map, not_exists, not_and] at hs
      have hne : ¬ s = a.1 := fun e => hs a ha e.symm
      rw [bne_iff_ne]
      exact hne
    rw [this]; rfl
  · simp only [registeredProviders, List.mem_cons, List.mem_singleton, List.mem_nil_iff,
      or_false] at hp
    rcases hp with rfl | rfl | rfl | rfl | rfl <;> decide

theorem ResolveModel_registered_witness :
    Provider.gemini ∈ registeredProviders ∧
    "flash-lite" ∈ Provider.gemini.ModelAliases ∧
    Provider.gemini.ResolveModel "flash-lite" = "gemini-2.0-flash-lite" ∧
    Provider.gemini.ResolveModel "gemini-exp" = "gemini-exp" :=
  ⟨by decide, by decide,
    by
      obtain ⟨id, h1, h2, _⟩ :=
        (ResolveModel_registered .gemini (by decide) "flash-lite").1 (by decide)
      rw [h2]
      have h3 : Provider.gemini.aliasTable.lookup "flash-lite"
          = some "gemini-2.0-flash-lite" := by decide
      rw [h3] at h1
      exact (Option.some.inj h1).symm,
    (ResolveModel_registered .gemini (by decide) "gemini-exp").2.1 (by decide)⟩

/-! ## Requests built by `Run` -/

/-- C14: for every provider and every combination of feature flags `Run`
(client creation succeeding) builds a request; for anthropic and gemini it
enables extended reasoning exactly when `features.Thinking` and web search
exactly when `features.WebSearch`; for the OpenAI-compatible family it never
enables extended reasoning and enables web search exactly when
`features.WebSearch` and the provider name is `"openai"`; for xai and ollama
the result is the same for any two flag combinations. -/
theorem Run_features (p : Provider) (prompt model apiKey baseURL : String)
    (features other : FeatureFlags) :
    (∃ r, p.Run prompt model apiKey baseURL features none = .ok r ∧
      (match p with
        | .anthropic =>
          r.thinkingEnabled = features.Thinking ∧ r.webSearchEnabled = features.WebSearch
        | .gemini =>
          r.thinkingEnabled = features.Thinking ∧ r.webSearchEnabled = features.WebSearch
        | .openaiCompat c =>
          r.thinkingEnabled = false ∧
          r.webSearchEnabled = (features.WebSearch && c.name == "openai"))) ∧
    (Provider.openaiCompat xaiProvider).Run prompt model apiKey baseURL features none =
      (Provider.openaiCompat xaiProvider).Run prompt model apiKey baseURL other none ∧
    (Provider.openaiCompat ollamaProvider).Run prompt model apiKey baseURL features none =
      (Provider.openaiCompat ollamaProvider).Run prompt model apiKey baseURL other none := by
  refine ⟨?_, ?_, ?_⟩
  · obtain ⟨th, ws⟩ := features
    cases p with
    | anthropic =>
      refine ⟨_, rfl, ?_⟩
      cases th <;> cases ws <;> exact ⟨rfl, rfl⟩
    | gemini =>
      refine ⟨_, rfl, ?_⟩
      cases th <;> cases ws <;> exact ⟨rfl, rfl⟩
    | openaiCompat c =>
      refine ⟨_, rfl, ?_⟩
      cases ws <;> cases hn : (c.name == "openai") <;>
        simp [Request.thinkingEnabled, Request.webSearchEnabled, hn]
  · have hx : (xaiProvider.name == "openai") = false := by decide
    simp only [Provider.Run, hx, Bool.and_false, Bool.false_eq_true, if_false]
  · have hx : (ollamaProvider.name == "openai") = false := by decide
    simp only [Provider.Run, hx, Bool.and_false, Bool.false_eq_true, if_false]

/-- The model ID that `Run` computes before building the request. -/
theorem Run_model (p : Provider) (prompt model apiKey baseURL : String)
    (features : FeatureFlags) :
    ∃ r, p.Run prompt model apiKey baseURL features none = .ok r ∧
      r.model = (if p.ResolveModel model ≠ "" then p.ResolveModel model
        else p.ResolveModel p.DefaultModel) := by
  obtain ⟨th, ws⟩ := features
  cases p with
  | anthropic =>
    refine ⟨_, rfl, ?_⟩
    by_cases h : Provider.anthropic.ResolveModel model = "" <;>
      cases th <;> cases ws <;> simp [Request.model, h]
  | gemini =>
    refine ⟨_, rfl, ?_⟩
    by_cases h : Provider.gemini.ResolveModel model = "" <;>
      simp [Request.model, h]
  | openaiCompat c =>
    refine ⟨_, rfl, ?_⟩
    by_cases h : (Provider.openaiCompat c).ResolveModel model = "" <;>
      cases ws <;> cases hn : (c.name == "openai") <;>
      simp [Request.model, h, hn, Provider.DefaultModel]

theorem ResolveModel_default_ne (p : Provider) (hp : p ∈ registeredProviders) :
    p.ResolveModel p.DefaultModel ≠ "" := by
  simp only [registeredProviders, List.mem_cons, List.mem_singleton, List.mem_nil_iff,
    or_false] at hp
  rcases hp with rfl | rfl | rfl | rfl | rfl <;> decide

/-- C15: for each of the five registered providers and every model string
`m`, `Run` (client creation succeeding) builds a request whose model ID is
`ResolveModel(m)` when that is not empty and `ResolveModel(DefaultModel())`
otherwise, and the model ID is never the empty string. -/
theorem Run_model_registered (p : Provider) (hp : p ∈ registeredProviders)
    (prompt m apiKey baseURL : String) (features : FeatureFlags) :
    ∃ r, p.Run prompt m apiKey baseURL features none = .ok r ∧
      r.model = (if p.ResolveModel m ≠ "" then p.ResolveModel m
        else p.ResolveModel p.DefaultModel) ∧
      r.model ≠ "" := by
  obtain ⟨r, hr, hm⟩ := Run_model p prompt m apiKey baseURL features
  refine ⟨r, hr, hm, ?_⟩
  rw [hm]
  by_cases h : p.ResolveModel m = ""
  · rw [if_neg (by simpa using h)]
    exact ResolveModel_default_ne p hp
  · rw [if_pos h]
    exact h

theorem Run_model_registered_witness :
    Provider.openaiCompat xaiProvider ∈ registeredProviders ∧
    (Provider.openaiCompat xaiProvider).Run "hi" "" "k" "" ⟨true, true⟩ none =
      .ok (.openai ⟨"https://api.x.ai/v1", some "k", "grok-3-latest", "hi", none⟩) ∧
    ∃ r, (Provider.openaiCompat xaiProvider).Run "hi" "" "k" "" ⟨true, true⟩ none = .ok r ∧
      r.model = (if (Provider.openaiCompat xaiProvider).ResolveModel "" ≠ ""
        then (Provider.openaiCompat xaiProvider).ResolveModel ""
        else (Provider.openaiCompat xaiProvider).ResolveModel
          (Provider.openaiCompat xaiProvider).DefaultModel) ∧
      r.model ≠ "" :=
  ⟨by decide, rfl,
    Run_model_registered (.openaiCompat xaiProvider) (by decide) "hi" "" "k" "" ⟨true, true⟩⟩

/-! ## Credentials in `runAPI` -/

/-- C13: in `runAPI`, for every provider `p` that `getProvider` resolves and
every environment and configuration, the outcome is the missing-credential
error exactly when `p.EnvKey()` is not empty and both the value of that
environment variable and the configured `api_key` are empty; otherwise the
API key handed to `p.Run` (or left unused by a dry run) is the value of the
environment variable when it is not empty and the configured key otherwise;
so a provider with an empty `EnvKey`, such as ollama, never fails for a
missing credential. -/
theorem runAPI_credentials (registry : List Provider) (env : List (String × String))
    (flags : CliFlags) (prompt model : String) (cfg : appConfig) (p : Provider)
    (hp : getProvider registry cfg.resolvedProvider = .ok p) :
    ((runAPI registry env flags prompt model cfg).isMissingCredential = true ↔
      (p.EnvKey ≠ "" ∧ Getenv env p.EnvKey = "" ∧ cfg.APIKey = "")) ∧
    (¬ (p.EnvKey ≠ "" ∧ Getenv env p.EnvKey = "" ∧ cfg.APIKey = "") →
      runAPI registry env flags prompt model cfg =
        if flags.dryRun then
          .dryRunLine cfg.resolvedProvider
            (p.ResolveModel (if model = "" then p.DefaultModel else model))
            ⟨flags.thinkFlag, flags.searchFlag⟩ prompt
        else
          .run p prompt (if model = "" then p.DefaultModel else model)
            (if Getenv env p.EnvKey ≠ "" then Getenv env p.EnvKey else cfg.APIKey)
            cfg.BaseURL ⟨flags.thinkFlag, flags.searchFlag⟩) ∧
    (p.EnvKey = "" → (runAPI registry env flags prompt model cfg).isMissingCredential = false) ∧
    (Provider.openaiCompat ollamaProvider).EnvKey = "" := by
  have hrun : runAPI registry env flags prompt model cfg =
      if ((if Getenv env p.EnvKey == "" then cfg.APIKey else Getenv env p.EnvKey) == ""
          && p.EnvKey != "") = true then
        .missingCredential p.EnvKey
      else if flags.dryRun then
        .dryRunLine cfg.resolvedProvider
          (p.ResolveModel (if model == "" then p.DefaultModel else model))
          ⟨flags.thinkFlag, flags.searchFlag⟩ prompt
      else
        .run p prompt (if model == "" then p.DefaultModel else model)
          (if Getenv env p.EnvKey == "" then cfg.APIKey else Getenv env p.EnvKey)
          cfg.BaseURL ⟨flags.thinkFlag, flags.searchFlag⟩ := by
    unfold runAPI
    simp only [hp]
  by_cases he : Getenv env p.EnvKey = "" <;> by_cases hk : cfg.APIKey = "" <;>
    by_cases hn : p.EnvKey = "" <;> by_cases hd : flags.dryRun = true <;>
    simp [hrun, he, hk, hn, hd, ApiOutcome.isMissingCredential] <;> rfl

theorem runAPI_credentials_witness :
    getProvider registeredProviders ollamaConfig.resolvedProvider
      = .ok (.openaiCompat ollamaProvider) ∧
    (runAPI registeredProviders [("HOME", "/root")] ⟨false, false, false⟩ "hi" ""
      ollamaConfig).isMissingCredential = false ∧
    runAPI registeredProviders [("HOME", "/root")] ⟨false, false, false⟩ "hi" "" ollamaConfig
      = .run (.openaiCompat ollamaProvider) "hi" "llama3" "" "" ⟨false, false⟩ :=
  ⟨rfl,
    (runAPI_credentials registeredProviders [("HOME", "/root")] ⟨false, false, false⟩ "hi" ""
      ollamaConfig (.openaiCompat ollamaProvider) rfl).2.2.1 rfl,
    by decide⟩

/-! ## The cursor of the configuration wizard -/

theorem getProvider_mem (registry : List Provider) (name : String) (p : Provider)
    (h : getProvider registry name = .ok p) : p ∈ registry := by
  unfold getProvider at h
  split at h
  · next q hq =>
    cases h
    exact List.mem_of_find?_eq_some hq
  · cases h

theorem currentOptions_ne_nil (env : WizardEnv) (hnames : env.providerNames ≠ [])
    (haliases : ∀ p ∈ env.registry, p.ModelAliases ≠ []) (m : configWizard)
    (hsel : m.step.isSelection = true) : 0 < ((m.currentOptions env).length : Int) := by
  have hpos : ∀ l : List String, l ≠ [] → 0 < (l.length : Int) := by
    intro l hl
    cases l with
    | nil => exact absurd rfl hl
    | cons a l => rw [List.length_cons]; omega
  have hmodel : 0 < ((m.modelOptions env).length : Int) := by
    unfold configWizard.modelOptions
    split
    · split
      · next p hp => exact hpos _ (haliases p (getProvider_mem _ _ _ hp))
      · exact hpos _ (by simp)
    · exact hpos _ (by simp)
  unfold configWizard.currentOptions
  cases hs : m.step <;> rw [hs] at hsel <;> simp only [] <;>
    first
    | exact absurd hsel (by decide)
    | exact hpos _ hnames
    | exact hmodel
    | exact hpos _ (by simp)


theorem cursorInRange_of_zero (env : WizardEnv) (hnames : env.providerNames ≠ [])
    (haliases : ∀ p ∈ env.registry, p.ModelAliases ≠ []) (m : configWizard)
    (h0 : m.cursor = 0) : m.cursorInRange env := by
  intro hsel
  rw [h0]
  exact ⟨le_refl 0, currentOptions_ne_nil env hnames haliases m hsel⟩

theorem cursorInRange_congr (env : WizardEnv) (m m2 : configWizard)
    (hs : m2.step = m.step) (hc : m2.config = m.config) (hk : m2.cursor = m.cursor)
    (h : m.cursorInRange env) : m2.cursorInRange env := by
  have ho : m2.currentOptions env = m.currentOptions env := by
    unfold configWizard.currentOptions configWizard.modelOptions
    rw [hs, hc]
  unfold configWizard.cursorInRange at h ⊢
  rw [hs, hk, ho]
  exact h

theorem indexOpts_isSome (opts : List String) (i : Int) (h0 : 0 ≤ i)
    (h1 : i < (opts.length : Int)) : ∃ o, indexOpts opts i = some o := by
  unfold indexOpts
  rw [if_pos ⟨h0, h1⟩]
  have : i.toNat < opts.length := by omega
  exact ⟨opts[i.toNat], List.getElem?_eq_getElem this⟩

theorem confirmSelection_cursorInRange (env : WizardEnv) (hnames : env.providerNames ≠ [])
    (haliases : ∀ p ∈ env.registry, p.ModelAliases ≠ []) (m : configWizard)
    (hsel : m.step.isSelection = true) (h : m.cursorInRange env) :
    ∃ m2 c, m.confirmSelection env = some (m2, c) ∧ m2.cursorInRange env := by
  obtain ⟨o, ho⟩ := indexOpts_isSome _ _ (h hsel).1 (h hsel).2
  have hz := cursorInRange_of_zero env hnames haliases
  unfold configWizard.confirmSelection
  cases hs : m.step with
  | stepAPIKey => rw [hs] at hsel; exact absurd hsel (by decide)
  | stepBaseURL => rw [hs] at hsel; exact absurd hsel (by decide)
  | stepConfirm =>
    simp only [ho]
    split
    · exact ⟨_, _, rfl, cursorInRange_congr env m _ hs.symm rfl rfl h⟩
    · exact ⟨_, _, rfl, cursorInRange_congr env m _ hs.symm rfl rfl h⟩
  | stepProvider =>
    simp only [ho]
    exact ⟨_, _, rfl, hz _ rfl⟩
  | _ =>
    simp only [ho]
    exact ⟨_, _, rfl, hz _ rfl⟩


theorem cursor_up (env : WizardEnv) (m : configWizard) (h : m.cursorInRange env) :
    (if m.cursor > 0 then { m with cursor := m.cursor - 1 } else m).cursorInRange env := by
  split
  · next hc =>
    intro hsel
    have := h hsel
    show 0 ≤ m.cursor - 1 ∧ m.cursor - 1 < ((m.currentOptions env).length : Int)
    omega
  · exact h

theorem cursor_down (env : WizardEnv) (m : configWizard) (h : m.cursorInRange env) :
    (if m.cursor < ((m.currentOptions env).length : Int) - 1 then
      { m with cursor := m.cursor + 1 } else m).cursorInRange env := by
  split
  · next hc =>
    intro hsel
    have := h hsel
    show 0 ≤ m.cursor + 1 ∧ m.cursor + 1 < ((m.currentOptions env).length : Int)
    omega
  · exact h

theorem updateSelection_cursorInRange (env : WizardEnv) (hnames : env.providerNames ≠ [])
    (haliases : ∀ p ∈ env.registry, p.ModelAliases ≠ []) (m : configWizard) (msg : KeyMsg)
    (hsel : m.step.isSelection = true) (h : m.cursorInRange env) :
    ∃ m2 c, m.updateSelection env msg = some (m2, c) ∧ m2.cursorInRange env := by
  unfold configWizard.updateSelection
  cases msg.type with
  | KeyUp => exact ⟨_, _, rfl, cursor_up env m h⟩
  | KeyDown => exact ⟨_, _, rfl, cursor_down env m h⟩
  | KeyEnter => exact confirmSelection_cursorInRange env hnames haliases m hsel h
  | KeyEsc => exact ⟨_, _, rfl, cursorInRange_congr env m _ rfl rfl rfl h⟩
  | KeyCtrlC => exact ⟨_, _, rfl, cursorInRange_congr env m _ rfl rfl rfl h⟩
  | KeyOther =>
    simp only
    split
    · exact ⟨_, _, rfl, cursor_up env m h⟩
    · split
      · exact ⟨_, _, rfl, cursor_down env m h⟩
      · exact ⟨_, _, rfl, h⟩

theorem prepareBaseURLInput_fields (env : WizardEnv) (m : configWizard) :
    (m.prepareBaseURLInput env).step = m.step ∧
    (m.prepareBaseURLInput env).config = m.config ∧
    (m.prepareBaseURLInput env).cursor = m.cursor := by
  unfold configWizard.prepareBaseURLInput
  exact ⟨rfl, rfl, rfl⟩

theorem updateTextInput_cursorInRange (env : WizardEnv) (hnames : env.providerNames ≠ [])
    (haliases : ∀ p ∈ env.registry, p.ModelAliases ≠ []) (m : configWizard) (msg : KeyMsg)
    (h : m.cursorInRange env) : (m.updateTextInput env msg).1.cursorInRange env := by
  have hz := cursorInRange_of_zero env hnames haliases
  unfold configWizard.updateTextInput
  cases msg.type with
  | KeyEnter =>
    simp only
    split
    · apply hz
      rw [(prepareBaseURLInput_fields env _).2.2]
    · split
      · exact hz _ rfl
      · exact h
  | KeyEsc => exact cursorInRange_congr env m _ rfl rfl rfl h
  | KeyCtrlC => exact cursorInRange_congr env m _ rfl rfl rfl h
  | _ => exact cursorInRange_congr env m _ rfl rfl rfl h

theorem Update_cursorInRange (env : WizardEnv) (hnames : env.providerNames ≠ [])
    (haliases : ∀ p ∈ env.registry, p.ModelAliases ≠ []) (m : configWizard) (msg : Msg)
    (h : m.cursorInRange env) :
    ∃ m2 c, m.Update env msg = some (m2, c) ∧ m2.cursorInRange env := by
  unfold configWizard.Update
  cases msg with
  | WindowSizeMsg w ht => exact ⟨_, _, rfl, cursorInRange_congr env m _ rfl rfl rfl h⟩
  | KeyMsg k =>
    simp only
    split
    · exact ⟨_, _, rfl, updateTextInput_cursorInRange env hnames haliases m k h⟩
    · next hstep =>
      have hsel : m.step.isSelection = true := by
        cases hs : m.step <;> simp [hs] at hstep <;> rfl
      exact updateSelection_cursorInRange env hnames haliases m k hsel h
  | other =>
    simp only
    split
    · exact ⟨_, _, rfl, cursorInRange_congr env m _ rfl rfl rfl h⟩
    · exact ⟨_, _, rfl, h⟩

theorem runFrom_cursorInRange (env : WizardEnv) (hnames : env.providerNames ≠ [])
    (haliases : ∀ p ∈ env.registry, p.ModelAliases ≠ []) (msgs : List Msg) :
    ∀ m : configWizard, m.cursorInRange env →
      ∃ m2, msgs.foldl (deliver env) (some m) = some m2 ∧ m2.cursorInRange env := by
  induction msgs with
  | nil => intro m h; exact ⟨m, rfl, h⟩
  | cons msg msgs ih =>
    intro m h
    obtain ⟨m2, c, hu, h2⟩ := Update_cursorInRange env hnames haliases m msg h
    rw [List.foldl_cons]
    have hd : deliver env (some m) msg = some m2 := by
      simp only [deliver, hu]
    rw [hd]
    exact ih m2 h2

/-- C17: when `providerNames()` and the `ModelAliases()` of every registered
provider are not empty, every sequence of messages delivered to the model of
`newConfigWizard` is processed without a panic, and in the state reached,
whenever the step is a selection step, `0 <= cursor < len(currentOptions())`,
so that the index expression `opts[m.cursor]` of `confirmSelection` is in
range. -/
theorem wizard_cursor_in_range (env : WizardEnv)
    (hnames : env.providerNames ≠ [])
    (haliases : ∀ p ∈ env.registry, p.ModelAliases ≠ [])
    (msgs : List Msg) :
    ∃ m, runWizard env msgs = some m ∧
      (m.step.isSelection = true →
        0 ≤ m.cursor ∧ m.cursor < ((m.currentOptions env).length : Int) ∧
        ∃ o, indexOpts (m.currentOptions env) m.cursor = some o) := by
  have h0 : newConfigWizard.cursorInRange env :=
    cursorInRange_of_zero env hnames haliases newConfigWizard rfl
  obtain ⟨m, hm, hin⟩ := runFrom_cursorInRange env hnames haliases msgs newConfigWizard h0
  refine ⟨m, hm, fun hsel => ?_⟩
  have hr := hin hsel
  exact ⟨hr.1, hr.2, indexOpts_isSome _ _ hr.1 hr.2⟩

theorem wizard_cursor_in_range_witness :
    sampleEnv.providerNames ≠ [] ∧
    (∀ p ∈ sampleEnv.registry, p.ModelAliases ≠ []) ∧
    (runWizard sampleEnv
      [.KeyMsg ⟨.KeyDown, "down"⟩, .KeyMsg ⟨.KeyDown, "down"⟩, .KeyMsg ⟨.KeyEnter, "enter"⟩,
       .KeyMsg ⟨.KeyOther, "j"⟩, .KeyMsg ⟨.KeyOther, "k"⟩, .KeyMsg ⟨.KeyOther, "k"⟩,
       .KeyMsg ⟨.KeyUp, "up"⟩, .WindowSizeMsg 80 24, .KeyMsg ⟨.KeyOther, "j"⟩]).map
        (fun m => (m.step, m.cursor)) = some (.stepProvider, 1) ∧
    ∃ m, runWizard sampleEnv
      [.KeyMsg ⟨.KeyDown, "down"⟩, .KeyMsg ⟨.KeyDown, "down"⟩, .KeyMsg ⟨.KeyEnter, "enter"⟩,
       .KeyMsg ⟨.KeyOther, "j"⟩, .KeyMsg ⟨.KeyOther, "k"⟩, .KeyMsg ⟨.KeyOther, "k"⟩,
       .KeyMsg ⟨.KeyUp, "up"⟩, .WindowSizeMsg 80 24, .KeyMsg ⟨.KeyOther, "j"⟩] = some m ∧
      (m.step.isSelection = true →
        0 ≤ m.cursor ∧ m.cursor < ((m.currentOptions sampleEnv).length : Int) ∧
        ∃ o, indexOpts (m.currentOptions sampleEnv) m.cursor = some o) :=
  ⟨by decide, by decide, by decide,
    wizard_cursor_in_range sampleEnv (by decide) (by decide) _⟩

end Cq
